import Mathlib

/-!
# Package `errs`: error rendering and HTTP status classification

A shallow embedding of `src/cannot.go` and `src/http.go`.

* A Go `string` is a sequence of bytes; `GoString` is the list of those bytes
  (every element is below 256 in a string the program can hold).
* A Go `error` interface value is a `GoError`: the nil interface, or a
  non-nil pointer to one of the error types this package creates or inspects;
  an error of any other type is known by the text of its `Error` method.
  A nil pointer stored in a non-nil interface is not modelled.
* A Go function that can stop with a run-time panic returns
  `Except Panic _`; `.error p` is the panic, `.ok v` the returned value.
* Go's `int` is modelled by `Int`: the only arithmetic on it is a division by
  100, which cannot overflow.
* The calls into `net/http` (`http.NewRequest`, `Header.Add`, `AddCookie`,
  `Client.Do`, and the read of the response body) are the fields of a
  parameter `lib : Http Req Cookie`, so that every outcome of the network is
  covered; a pointer that the library may return as nil is an `Option`.

The standard library routines the package calls (`strings.HasPrefix`,
`fmt`'s `%q` and `%d`, `utf8.DecodeRuneInString`, the `Error` methods of
`*os.PathError` and `*url.Error`) are embedded from their Go definitions
(Go 1.14 and later, where `(*url.Error).Error` quotes the URL with `%q`).
The Unicode table behind `strconv.IsPrint` for runes above U+00FF is not part
of the program and is taken as the parameter `tbl`.
-/

namespace Errs

/-! ## Strings -/

/-- A Go string: its bytes, in order. -/
abbrev GoString := List Nat

/-- The bytes of an ASCII string literal of the source. -/
def ascii (s : String) : GoString := s.toList.map Char.toNat

/-- The run-time panics the package can raise. -/
inductive Panic
  /-- Method call through a nil interface value:
  `invalid memory address or nil pointer dereference`. -/
  | nilDereference
  /-- The slice expression `s[:hi]` on a string of length `len < hi`:
  `slice bounds out of range [:hi] with length len`. -/
  | sliceHigh (hi len : Nat)
  /-- The slice expression `s[lo:]` on a string of length `len < lo`:
  `slice bounds out of range [lo:len]`. -/
  | sliceLow (lo len : Nat)
deriving DecidableEq, Repr

deriving instance DecidableEq for Except

/-- Go's `s[:hi]`: panics when `hi > len(s)`. -/
def sliceTo (s : GoString) (hi : Nat) : Except Panic GoString :=
  if hi ≤ s.length then .ok (s.take hi) else .error (.sliceHigh hi s.length)

/-- Go's `s[lo:]`: panics when `lo > len(s)`. -/
def sliceFrom (s : GoString) (lo : Nat) : Except Panic GoString :=
  if lo ≤ s.length then .ok (s.drop lo) else .error (.sliceLow lo s.length)

/-- Go's `strings.HasPrefix`:
`len(s) >= len(prefix) && s[:len(prefix)] == prefix`. -/
def HasPrefix (s pre : GoString) : Bool :=
  decide (pre.length ≤ s.length) && (s.take pre.length == pre)

/-! ## `%d` -/

/-- The decimal digits of a natural number, most significant first. -/
def decimalNat (n : Nat) : GoString := (Nat.toDigits 10 n).map Char.toNat

/-- What `fmt` prints for `%d` of an `int`. -/
def decimal (i : Int) : GoString :=
  if i < 0 then ascii "-" ++ decimalNat i.natAbs else decimalNat i.natAbs

/-! ## `%q` (`strconv.Quote`) -/

/-- The constant `utf8.RuneError`, U+FFFD. -/
def RuneError : Nat := 0xFFFD

/-- One digit of `strconv`'s table `lowerhex = "0123456789abcdef"`. -/
def lowerhex (n : Nat) : Nat := if n < 10 then 48 + n else 87 + n

/-- A continuation byte of UTF-8: between `locb = 0x80` and `hicb = 0xBF`. -/
def isCont (b : Nat) : Bool := decide (0x80 ≤ b) && decide (b ≤ 0xBF)

/-- Go's `utf8.DecodeRuneInString`: the first rune of `s` and its width in
bytes; `(RuneError, 1)` for an invalid encoding, `(RuneError, 0)` for the
empty string. The case analysis on the first byte is that of the tables
`first` and `acceptRanges`. -/
def DecodeRuneInString (s : GoString) : Nat × Nat :=
  match s with
  | [] => (RuneError, 0)
  | s0 :: t =>
    if s0 < 0x80 then (s0, 1)
    else if s0 < 0xC2 ∨ 0xF4 < s0 then (RuneError, 1)
    else
      let sz := if s0 < 0xE0 then 2 else if s0 < 0xF0 then 3 else 4
      let lo := if s0 = 0xE0 then 0xA0 else if s0 = 0xF0 then 0x90 else 0x80
      let hi := if s0 = 0xED then 0x9F else if s0 = 0xF4 then 0x8F else 0xBF
      if (s0 :: t).length < sz then (RuneError, 1)
      else
        match t with
        | [] => (RuneError, 1)
        | s1 :: t1 =>
          if s1 < lo ∨ hi < s1 then (RuneError, 1)
          else if sz ≤ 2 then (((s0 &&& 0x1F) <<< 6) ||| (s1 &&& 0x3F), 2)
          else
            match t1 with
            | [] => (RuneError, 1)
            | s2 :: t2 =>
              if !isCont s2 then (RuneError, 1)
              else if sz ≤ 3 then
                (((s0 &&& 0x0F) <<< 12) ||| ((s1 &&& 0x3F) <<< 6) ||| (s2 &&& 0x3F), 3)
              else
                match t2 with
                | [] => (RuneError, 1)
                | s3 :: _ =>
                  if !isCont s3 then (RuneError, 1)
                  else
                    (((s0 &&& 0x07) <<< 18) ||| ((s1 &&& 0x3F) <<< 12)
                      ||| ((s2 &&& 0x3F) <<< 6) ||| (s3 &&& 0x3F), 4)

/-- Go's `utf8.ValidRune`: a code point up to U+10FFFF that is not a
surrogate. -/
def ValidRune (r : Nat) : Bool :=
  decide (r < 0xD800) || (decide (0xDFFF < r) && decide (r ≤ 0x10FFFF))

/-- Go's `utf8.AppendRune` on an empty buffer: the UTF-8 encoding of `r`. -/
def AppendRune (r : Nat) : GoString :=
  if r ≤ 0x7F then [r]
  else if r ≤ 0x7FF then [0xC0 ||| (r >>> 6), 0x80 ||| (r &&& 0x3F)]
  else if !ValidRune r then [0xEF, 0xBF, 0xBD]
  else if r ≤ 0xFFFF then
    [0xE0 ||| (r >>> 12), 0x80 ||| ((r >>> 6) &&& 0x3F), 0x80 ||| (r &&& 0x3F)]
  else
    [0xF0 ||| (r >>> 18), 0x80 ||| ((r >>> 12) &&& 0x3F),
      0x80 ||| ((r >>> 6) &&& 0x3F), 0x80 ||| (r &&& 0x3F)]

/-- Go's `strconv.IsPrint`. Latin-1 is decided by the code of the function;
above U+00FF the answer is read from the Unicode table `tbl`. -/
def IsPrint (tbl : Nat → Bool) (r : Nat) : Bool :=
  if r ≤ 0xFF then
    if 0x20 ≤ r ∧ r ≤ 0x7E then true
    else if 0xA1 ≤ r ∧ r ≤ 0xFF then decide (r ≠ 0xAD)
    else false
  else tbl r

/-- Go's `strconv.appendEscapedRune` with `quote = '"'`, `ASCIIonly = false`
and `graphicOnly = false`, as `%q` calls it. -/
def appendEscapedRune (tbl : Nat → Bool) (r : Nat) : GoString :=
  if r = 0x22 ∨ r = 0x5C then [0x5C, r]
  else if IsPrint tbl r then AppendRune r
  else if r = 7 then ascii "\\a"
  else if r = 8 then ascii "\\b"
  else if r = 12 then ascii "\\f"
  else if r = 10 then ascii "\\n"
  else if r = 13 then ascii "\\r"
  else if r = 9 then ascii "\\t"
  else if r = 11 then ascii "\\v"
  else if r < 0x20 ∨ r = 0x7F then
    ascii "\\x" ++ [lowerhex (r >>> 4), lowerhex (r &&& 0xF)]
  else
    let r := if !ValidRune r then RuneError else r
    if r < 0x10000 then
      ascii "\\u" ++ [lowerhex ((r >>> 12) &&& 0xF), lowerhex ((r >>> 8) &&& 0xF),
        lowerhex ((r >>> 4) &&& 0xF), lowerhex (r &&& 0xF)]
    else
      ascii "\\U" ++ [lowerhex ((r >>> 28) &&& 0xF), lowerhex ((r >>> 24) &&& 0xF),
        lowerhex ((r >>> 20) &&& 0xF), lowerhex ((r >>> 16) &&& 0xF),
        lowerhex ((r >>> 12) &&& 0xF), lowerhex ((r >>> 8) &&& 0xF),
        lowerhex ((r >>> 4) &&& 0xF), lowerhex (r &&& 0xF)]

/-- The loop of `strconv.appendQuotedWith`: one rune of `s` per turn. Every
turn consumes at least one byte, so `len(s)` turns always suffice; `n` bounds
the number of turns. -/
def quoteLoop (tbl : Nat → Bool) : Nat → GoString → GoString
  | 0, _ => []
  | _ + 1, [] => []
  | n + 1, s0 :: t =>
    let rw := if 0x80 ≤ s0 then DecodeRuneInString (s0 :: t) else (s0, 1)
    if rw.2 = 1 ∧ rw.1 = RuneError then
      ascii "\\x" ++ [lowerhex (s0 >>> 4), lowerhex (s0 &&& 0xF)] ++ quoteLoop tbl n t
    else
      appendEscapedRune tbl rw.1 ++ quoteLoop tbl n ((s0 :: t).drop rw.2)

/-- What `fmt` prints for `%q` of a string: `strconv.Quote`. -/
def Quote (tbl : Nat → Bool) (s : GoString) : GoString :=
  [0x22] ++ quoteLoop tbl s.length s ++ [0x22]

/-! ## Error values -/

/-- The text of a run-time panic, as its `Error` method gives it. -/
def Panic.message : Panic → GoString
  | .nilDereference =>
      ascii "runtime error: invalid memory address or nil pointer dereference"
  | .sliceHigh hi len =>
      ascii "runtime error: slice bounds out of range [:" ++ decimalNat hi
        ++ ascii "] with length " ++ decimalNat len
  | .sliceLow lo len =>
      ascii "runtime error: slice bounds out of range [" ++ decimalNat lo
        ++ ascii ":" ++ decimalNat len ++ ascii "]"

/-- A value of Go's interface type `error`, as far as this package can tell
values apart: the nil interface, or a non-nil pointer to a value of one of
the types named below. -/
inductive GoError
  /-- The nil interface value. -/
  | nil
  /-- `&os.PathError{Op, Path, Err}`. -/
  | pathError (Op Path : GoString) (Err : GoError)
  /-- `&url.Error{Op, URL, Err}`. -/
  | urlError (Op URL : GoString) (Err : GoError)
  /-- `&CannotError{Verb, Adjective, Noun, QuoteNoun, Suffix, BaseError}`. -/
  | cannotError (Verb Adjective Noun : GoString) (QuoteNoun : Bool)
      (Suffix : GoString) (BaseError : GoError)
  /-- `&HttpError{Code, Text}`. -/
  | httpError (Code : Int) (Text : GoString)
  /-- An error of any other type, which the package knows only by the text
  its `Error` method returns, such as `errors.New(text)`. -/
  | errorString (text : GoString)
deriving DecidableEq, Repr

/-- The `CannotError` struct of `src/cannot.go`. -/
structure CannotError where
  Verb : GoString
  Adjective : GoString
  Noun : GoString
  QuoteNoun : Bool
  Suffix : GoString
  BaseError : GoError
deriving DecidableEq, Repr

/-- The `HttpError` struct of `src/http.go`. -/
structure HttpError where
  Code : Int
  Text : GoString
deriving DecidableEq, Repr

/-- A `*CannotError` as a value of the interface type `error`. -/
def CannotError.toError (ce : CannotError) : GoError :=
  .cannotError ce.Verb ce.Adjective ce.Noun ce.QuoteNoun ce.Suffix ce.BaseError

/-- A `*HttpError` as a value of the interface type `error`. -/
def HttpError.toError (e : HttpError) : GoError := .httpError e.Code e.Text

/-- The function `Cannot` of `src/cannot.go`. -/
def Cannot (verb adjective noun : GoString) (quoteNoun : Bool) (suffix : GoString)
    (baseError : GoError) : CannotError :=
  { Verb := verb, Adjective := adjective, Noun := noun, QuoteNoun := quoteNoun,
    Suffix := suffix, BaseError := baseError }

/-- The method `(*CannotError).Unwrap`. -/
def CannotError.Unwrap (ce : CannotError) : GoError := ce.BaseError

/-! ## `src/http.go`: status codes and `HttpError` -/

/-- The function `IsHTTPerror`: `code/100 != 2`, with Go's integer division,
which truncates towards zero. -/
def IsHTTPerror (code : Int) : Bool := Int.tdiv code 100 != 2

/-- The method `(*HttpError).Error`. -/
def HttpError.Error (e : HttpError) : Except Panic GoString := do
  let codeAsText := decimal e.Code ++ ascii " "
  let text ←
    if HasPrefix e.Text codeAsText then sliceFrom e.Text codeAsText.length
    else pure e.Text
  pure (ascii "HTTP error " ++ decimal e.Code ++ ascii " (" ++ text ++ ascii ")")

/-! ## `src/cannot.go`: `Error` and `TidyError` -/

/-- The last statements of `TidyError` (source lines 118-123), applied to the
text `e.Error()` returned. -/
def tidyText (text : GoString) : Except Panic GoString := do
  let head ← sliceTo text 5
  if head = ascii "zip: " then sliceFrom text (ascii "zip: ").length else pure text

mutual
/-- The method `Error` of an `error` value: dynamic dispatch on the type of
the value.
* nil interface: the call panics;
* `*os.PathError`: `e.Op + " " + e.Path + ": " + e.Err.Error()`;
* `*url.Error`: `fmt.Sprintf("%s %q: %s", e.Op, e.URL, e.Err)`, where `fmt`
  prints a nil `e.Err` as `%!s(<nil>)` and recovers from a panic of
  `e.Err.Error()`;
* `*CannotError`: the method `(*CannotError).Error` of `src/cannot.go`;
* `*HttpError`: the method `(*HttpError).Error` of `src/http.go`. -/
def GoError.Error (tbl : Nat → Bool) : GoError → Except Panic GoString
  | .nil => .error .nilDereference
  | .pathError op path err => do
      let cause ← GoError.Error tbl err
      pure (op ++ ascii " " ++ path ++ ascii ": " ++ cause)
  | .urlError op url err =>
      let head := op ++ ascii " " ++ Quote tbl url ++ ascii ": "
      if err = .nil then pure (head ++ ascii "%!s(<nil>)")
      else
        match GoError.Error tbl err with
        | .ok cause => pure (head ++ cause)
        | .error p =>
            pure (head ++ ascii "%!s(PANIC=Error method: " ++ p.message ++ ascii ")")
  | .cannotError verb adjective noun quoteNoun suffix baseError =>
      let b := ascii "cannot " ++ verb ++ ascii " "
      let b := if adjective ≠ [] then b ++ (adjective ++ ascii " ") else b
      let b := if quoteNoun then b ++ Quote tbl noun else b ++ noun
      let b := if suffix ≠ [] then b ++ (ascii " " ++ suffix) else b
      if baseError ≠ .nil then do
        let tidy ← TidyError tbl baseError
        pure (b ++ ascii ": " ++ tidy)
      else pure b
  | .httpError code text => HttpError.Error { Code := code, Text := text }
  | .errorString text => pure text
termination_by e => (sizeOf e, 0)

/-- The function `TidyError` of `src/cannot.go`. -/
def TidyError (tbl : Nat → Bool) (e : GoError) : Except Panic GoString :=
  match e with
  | .pathError _ _ err => GoError.Error tbl err
  | .urlError op url err =>
      if op = ascii "parse" then do
        let text ← GoError.Error tbl err
        if HasPrefix text (ascii "net/url: ") then sliceFrom text (ascii "net/url").length
        else pure text
      else do
        let text ← GoError.Error tbl (.urlError op url err)
        tidyText text
  | e => do
      let text ← GoError.Error tbl e
      tidyText text
termination_by (sizeOf e, 1)
end

/-- The method `(*CannotError).Error` of `src/cannot.go`. -/
def CannotError.Error (tbl : Nat → Bool) (ce : CannotError) : Except Panic GoString :=
  GoError.Error tbl ce.toError

/-! ## The two special cases of `TidyError`, and sample data -/

/-- The test `_, isPathErr := e.(*os.PathError)` of `TidyError`. -/
def isPathErr : GoError → Bool
  | .pathError _ _ _ => true
  | _ => false

/-- The test `isNetUrlErr && ue.Op == "parse"` of `TidyError`. -/
def isParseErr : GoError → Bool
  | .urlError op _ _ => decide (op = ascii "parse")
  | _ => false

/-- A Unicode table in which no rune above U+00FF is printable; the examples
below use ASCII text only, where the table is not consulted. -/
def emptyTable : Nat → Bool := fun _ => false

/-- A byte that `%q` copies unchanged among those of ASCII: printable (from
the space to the tilde) and neither the double quote nor the backslash. -/
def plainByte (b : Nat) : Bool :=
  decide (0x20 ≤ b) && decide (b ≤ 0x7E) && decide (b ≠ 0x22) && decide (b ≠ 0x5C)

/-- A rune that `%q` copies unchanged: a valid code point that is printable
and is neither the double quote nor the backslash. -/
def plainRune (tbl : Nat → Bool) (r : Nat) : Bool :=
  ValidRune r && IsPrint tbl r && decide (r ≠ 0x22) && decide (r ≠ 0x5C)

/-- The UTF-8 encoding of a sequence of runes. -/
def encodeRunes : List Nat → GoString
  | [] => []
  | r :: rs => AppendRune r ++ encodeRunes rs

/-! ## `src/http.go`: the requests -/

/-- The part of an `*http.Response` that the package reads. -/
structure Response where
  /-- The field `StatusCode`. -/
  StatusCode : Int
  /-- The field `Status`, the status line without the protocol version. -/
  Status : GoString
  /-- What `ioutil.ReadAll(response.Body)` returns: the bytes read and the
  error, nil when the body was read to its end. -/
  ReadAll : GoString × GoError
deriving DecidableEq, Repr

/-- The calls into `net/http` made by `src/http.go`. `Req` is the state of an
`*http.Request`, `Cookie` an `*http.Cookie`. A pointer result is `none` when
the library returns nil. -/
structure Http (Req Cookie : Type) where
  /-- The call `http.NewRequest(method, url, nil)`. -/
  NewRequest : GoString → GoString → Option Req × GoError
  /-- The call `req.Header.Add(key, v)`, as the new state of the request. -/
  HeaderAdd : Req → GoString → GoString → Req
  /-- The call `req.AddCookie(c)`, as the new state of the request. -/
  AddCookie : Req → Cookie → Req
  /-- The call `http.DefaultClient.Do(request)`. -/
  Do : Req → Option Response × GoError

/-- A value of type `http.Header`: the keys in the order in which the `range`
statement visits them, each with its values. -/
abbrev Header := List (GoString × List GoString)

/-- The function `HTTPerror` of `src/http.go`. -/
def HTTPerror (response : Response) : GoError :=
  HttpError.toError { Code := response.StatusCode, Text := response.Status }

section Requests

variable {Req Cookie : Type}

/-- A use of the request through its pointer: a panic when the pointer is
nil. -/
def withRequest (req : Option Req) (f : Req → Req) : Except Panic (Option Req) :=
  match req with
  | none => .error .nilDereference
  | some r => .ok (some (f r))

/-- The function `newRequest` of `src/http.go`. A `range` over a nil map
visits nothing, so the test `headers != nil` of the source changes nothing
and a nil map is the empty list. -/
def newRequest (lib : Http Req Cookie) (method url : GoString) (headers : Header)
    (cookies : List Cookie) : Except Panic (Option Req × GoError) :=
  match lib.NewRequest method url with
  | (req, err) =>
    if err ≠ .nil then
      .ok (none, (Cannot (ascii "parse") (ascii "URL") url true [] err).toError)
    else do
      let req ← headers.foldlM
        (fun req kv =>
          kv.2.foldlM (fun req v => withRequest req (fun r => lib.HeaderAdd r kv.1 v)) req)
        req
      let req ← cookies.foldlM (fun req c => withRequest req (fun r => lib.AddCookie r c)) req
      pure (req, .nil)

/-- The call `http.DefaultClient.Do(request)`; the library dereferences the
request. -/
def doRequest (lib : Http Req Cookie) (request : Option Req) :
    Except Panic (Option Response × GoError) :=
  match request with
  | none => .error .nilDereference
  | some r => .ok (lib.Do r)

/-- A read of a field of `response` through the pointer: a panic when the
pointer is nil. -/
def deref (response : Option Response) : Except Panic Response :=
  match response with
  | none => .error .nilDereference
  | some r => .ok r

/-- The function `GetViaHTTP` of `src/http.go`. The result is the pair
returned: the body (`none` for a nil slice) and the error. The calls
`response.Body.Close()` return nothing that the function uses. -/
def GetViaHTTP (lib : Http Req Cookie) (url what : GoString) (headers : Header)
    (cookies : List Cookie) : Except Panic (Option GoString × GoError) := do
  let quoteIt := false
  let (what, quoteIt) := if what = [] then (url, true) else (what, quoteIt)
  let (request, err) ← newRequest lib (ascii "GET") url headers cookies
  if err ≠ .nil then
    pure (none, err)
  else
    let (response, err) ← doRequest lib request
    let err ←
      if err = .nil then do
        let r ← deref response
        if IsHTTPerror r.StatusCode then pure (HTTPerror r) else pure err
      else pure err
    if err ≠ .nil then
      pure (none, (Cannot (ascii "fetch") [] what quoteIt [] err).toError)
    else
      let r ← deref response
      let (responseBody, err) := r.ReadAll
      if err ≠ .nil then
        pure (none, (Cannot (ascii "read") [] what quoteIt (ascii " from network") err).toError)
      else
        pure (some responseBody, .nil)

/-- The function `MetaViaHTTP` of `src/http.go`. The result is the pair
returned: the response (`none` for nil) and the error. -/
def MetaViaHTTP (lib : Http Req Cookie) (url what : GoString) (headers : Header)
    (cookies : List Cookie) : Except Panic (Option Response × GoError) := do
  let quoteIt := false
  let (what, quoteIt) := if what = [] then (url, true) else (what, quoteIt)
  let (request, err) ← newRequest lib (ascii "HEAD") url headers cookies
  if err ≠ .nil then
    pure (none, err)
  else
    let (response, err) ← doRequest lib request
    let r ← deref response
    let err := if err = .nil ∧ IsHTTPerror r.StatusCode = true then HTTPerror r else err
    if err ≠ .nil then
      pure (none, (Cannot (ascii "get HEADers for") [] what quoteIt [] err).toError)
    else
      pure (some r, .nil)

end Requests

/-- A library in which every call to `http.NewRequest` and every call to
`Do` has the same given outcome, whatever the request. -/
def fixedHttp (newRequestResult : Option Unit × GoError)
    (doResult : Option Response × GoError) : Http Unit Unit :=
  { NewRequest := fun _ _ => newRequestResult
    HeaderAdd := fun r _ _ => r
    AddCookie := fun r _ => r
    Do := fun _ => doResult }

/-- The text that `(*CannotError).Error` writes before the cause (source
lines 60 to 71): `cannot`, the verb, the adjective if any, the noun, quoted
or not, and the suffix if any. -/
def CannotError.narrative (tbl : Nat → Bool) (ce : CannotError) : GoString :=
  ascii "cannot " ++ ce.Verb ++ ascii " "
    ++ (if ce.Adjective ≠ [] then ce.Adjective ++ ascii " " else [])
    ++ (if ce.QuoteNoun then Quote tbl ce.Noun else ce.Noun)
    ++ (if ce.Suffix ≠ [] then ascii " " ++ ce.Suffix else [])

/-! ## Auxiliary facts: unfolding the definitions -/

/-- Truncating division by 100 gives 2 exactly from 200 to 299. -/
theorem tdiv_hundred_eq_two (code : Int) :
    Int.tdiv code 100 = 2 ↔ 200 ≤ code ∧ code ≤ 299 := by
  rcases Int.lt_or_le code 0 with h | h
  · have h0 : (0 : Int) ≤ (-code).tdiv 100 := Int.tdiv_nonneg (by omega) (by decide)
    have h1 : code.tdiv 100 = -((-code).tdiv 100) := by
      rw [← Int.neg_tdiv, Int.neg_neg]
    omega
  · rw [Int.tdiv_eq_ediv h (by decide)]
    omega

/-- Unfolding of `(*CannotError).Error`: the text written before the cause,
then the cause if there is one. -/
theorem CannotError.Error_eq (tbl : Nat → Bool) (ce : CannotError) :
    ce.Error tbl =
      (let b := ascii "cannot " ++ ce.Verb ++ ascii " "
       let b := if ce.Adjective ≠ [] then b ++ (ce.Adjective ++ ascii " ") else b
       let b := if ce.QuoteNoun then b ++ Quote tbl ce.Noun else b ++ ce.Noun
       let b := if ce.Suffix ≠ [] then b ++ (ascii " " ++ ce.Suffix) else b
       if ce.BaseError ≠ .nil then
         (TidyError tbl ce.BaseError).map (fun tidy => b ++ ascii ": " ++ tidy)
       else .ok b) := by
  unfold CannotError.Error CannotError.toError
  rw [GoError.Error]
  simp only [bind, Except.bind, pure, Except.pure, Except.map]

/-- `TidyError` on a path error: the text of the wrapped error. -/
theorem TidyError_pathError (tbl : Nat → Bool) (op path : GoString) (err : GoError) :
    TidyError tbl (.pathError op path err) = GoError.Error tbl err := by
  rw [TidyError]

/-- `TidyError` on a URL error of operation `parse`. -/
theorem TidyError_parse (tbl : Nat → Bool) (url : GoString) (err : GoError) :
    TidyError tbl (.urlError (ascii "parse") url err) =
      (GoError.Error tbl err).bind (fun text =>
        if HasPrefix text (ascii "net/url: ") then sliceFrom text 7 else .ok text) := by
  rw [TidyError]
  simp only [if_true, bind, pure, Except.pure]
  rfl

/-- `TidyError` outside its two special cases: the last statements of the
function applied to `e.Error()`. -/
theorem TidyError_other (tbl : Nat → Bool) (e : GoError)
    (hp : isPathErr e = false) (hu : isParseErr e = false) :
    TidyError tbl e = (GoError.Error tbl e).bind tidyText := by
  cases e with
  | pathError op path err => simp [isPathErr] at hp
  | urlError op url err =>
      have h : op ≠ ascii "parse" := by simpa [isParseErr] using hu
      rw [TidyError]
      simp only [h, if_false]
      rfl
  | nil => simp [TidyError]; rfl
  | cannotError v a n q s b => simp [TidyError]; rfl
  | httpError c t => simp [TidyError]; rfl
  | errorString t => simp [TidyError]; rfl

/-- The text of an error known only by its text. -/
theorem Error_errorString (tbl : Nat → Bool) (text : GoString) :
    GoError.Error tbl (.errorString text) = .ok text := by
  rw [GoError.Error]; rfl

/-- `TidyError` on an error known only by its text. -/
theorem TidyError_errorString (tbl : Nat → Bool) (text : GoString) :
    TidyError tbl (.errorString text) = tidyText text := by
  rw [TidyError_other tbl (.errorString text) rfl rfl, Error_errorString]; rfl

/-- A text has each of its beginnings as a prefix. -/
theorem HasPrefix_append (pre rest : GoString) : HasPrefix (pre ++ rest) pre = true := by
  simp [HasPrefix]

/-- `HasPrefix` holds exactly of the texts that begin with the prefix. -/
theorem HasPrefix_iff (s pre : GoString) :
    HasPrefix s pre = true ↔ ∃ rest, s = pre ++ rest := by
  constructor
  · intro h
    simp only [HasPrefix, Bool.and_eq_true, decide_eq_true_eq, beq_iff_eq] at h
    refine ⟨s.drop pre.length, ?_⟩
    conv_lhs => rw [← List.take_append_drop pre.length s]
    rw [h.2]
  · rintro ⟨rest, rfl⟩
    exact HasPrefix_append pre rest

/-- On a text shorter than five bytes the slice `text[:5]` panics. -/
theorem tidyText_short (text : GoString) (h : text.length < 5) :
    tidyText text = .error (.sliceHigh 5 text.length) := by
  have h5 : ¬ 5 ≤ text.length := by omega
  simp only [tidyText, sliceTo, h5, if_false]
  rfl

/-- A leading `"zip: "` is removed. -/
theorem tidyText_zip (rest : GoString) : tidyText (ascii "zip: " ++ rest) = .ok rest := by
  have hl : (ascii "zip: ").length = 5 := by decide
  have h5 : 5 ≤ (ascii "zip: " ++ rest).length := by
    rw [List.length_append, hl]; omega
  have ht : (ascii "zip: " ++ rest).take 5 = ascii "zip: " := by
    rw [← hl, List.take_left]
  simp only [tidyText, sliceTo, sliceFrom, h5, if_true, bind, Except.bind, ht, hl]
  rw [← hl, List.drop_left]

/-- A text of five bytes or more without the prefix is returned whole. -/
theorem tidyText_other (text : GoString) (h5 : 5 ≤ text.length)
    (hz : HasPrefix text (ascii "zip: ") = false) : tidyText text = .ok text := by
  have hl : (ascii "zip: ").length = 5 := by decide
  have ht : text.take 5 ≠ ascii "zip: " := by
    intro h
    have : HasPrefix text (ascii "zip: ") = true := by
      simp [HasPrefix, hl, h5, h]
    rw [hz] at this
    exact Bool.noConfusion this
  simp only [tidyText, sliceTo, h5, if_true, bind, Except.bind, ht, if_false]
  rfl

/-- `TidyError` outside its two special cases, on a text shorter than five
bytes: the slice `text[:5]` is out of range. -/
theorem TidyError_short (tbl : Nat → Bool) (e : GoError) (text : GoString)
    (hp : isPathErr e = false) (hu : isParseErr e = false)
    (he : GoError.Error tbl e = .ok text) (h : text.length < 5) :
    TidyError tbl e = .error (.sliceHigh 5 text.length) := by
  rw [TidyError_other tbl e hp hu, he]
  exact tidyText_short text h

/-- `TidyError` outside its two special cases, on a text of five bytes or
more that does not begin with `"zip: "`: the text unchanged. -/
theorem TidyError_long (tbl : Nat → Bool) (e : GoError) (text : GoString)
    (hp : isPathErr e = false) (hu : isParseErr e = false)
    (he : GoError.Error tbl e = .ok text) (h5 : 5 ≤ text.length)
    (hz : HasPrefix text (ascii "zip: ") = false) :
    TidyError tbl e = .ok text := by
  rw [TidyError_other tbl e hp hu, he]
  exact tidyText_other text h5 hz

/-! ## Auxiliary facts: UTF-8 and `%q` -/

/-- The mask `0x3F` keeps the remainder modulo 64. -/
theorem and_63 (x : Nat) : x &&& 0x3F = x % 64 := Nat.and_pow_two_sub_one_eq_mod x 6

/-- The mask `0x1F` keeps the remainder modulo 32. -/
theorem and_31 (x : Nat) : x &&& 0x1F = x % 32 := Nat.and_pow_two_sub_one_eq_mod x 5

/-- The mask `0x0F` keeps the remainder modulo 16. -/
theorem and_15 (x : Nat) : x &&& 0x0F = x % 16 := Nat.and_pow_two_sub_one_eq_mod x 4

/-- The mask `0x07` keeps the remainder modulo 8. -/
theorem and_7 (x : Nat) : x &&& 0x07 = x % 8 := Nat.and_pow_two_sub_one_eq_mod x 3

/-- A bitwise or of a multiple of `2 ^ i` and a number below `2 ^ i` is their
sum. -/
theorem or_low (i a b : Nat) (h : b < 2 ^ i) : 2 ^ i * a ||| b = 2 ^ i * a + b :=
  (Nat.mul_add_lt_is_or h a).symm

/-- The same, for a number known to be a multiple of `2 ^ i`. -/
theorem or_sum (i a b x : Nat) (hx : x = 2 ^ i * a) (h : b < 2 ^ i) : x ||| b = x + b := by
  subst hx
  exact or_low i a b h

/-- The two bytes `AppendRune` writes for a rune from U+0080 to U+07FF. -/
theorem AppendRune_two (r : Nat) (h1 : 0x80 ≤ r) (h2 : r ≤ 0x7FF) :
    AppendRune r = [0xC0 + r / 64, 0x80 + r % 64] := by
  have a : ¬ r ≤ 0x7F := by omega
  have e0 : 0xC0 ||| (r >>> 6) = 0xC0 + r / 64 := by
    rw [Nat.shiftRight_eq_div_pow]
    exact or_low 6 3 (r / 2 ^ 6) (by norm_num; omega)
  have e1 : 0x80 ||| (r &&& 0x3F) = 0x80 + r % 64 := by
    rw [and_63]
    exact or_low 7 1 (r % 64) (by norm_num; omega)
  simp only [AppendRune, a, if_false, h2, if_true, e0, e1]

/-- The decoder on a well-formed sequence of two bytes. -/
theorem decode_two (s0 s1 : Nat) (t : GoString) (h0 : 0xC2 ≤ s0) (h0' : s0 < 0xE0)
    (h1 : 0x80 ≤ s1) (h1' : s1 ≤ 0xBF) :
    DecodeRuneInString (s0 :: s1 :: t) = ((s0 - 0xC0) * 64 + (s1 - 0x80), 2) := by
  have e : ((s0 &&& 0x1F) <<< 6) ||| (s1 &&& 0x3F) = (s0 - 0xC0) * 64 + (s1 - 0x80) := by
    rw [and_31, and_63, Nat.shiftLeft_eq, Nat.mul_comm]
    rw [or_low 6 _ _ (by norm_num; omega)]
    omega
  have c1 : ¬ s0 < 0x80 := by omega
  have c2 : ¬ (s0 < 0xC2 ∨ 0xF4 < s0) := by omega
  have c3 : s0 ≠ 0xE0 := by omega
  have c4 : s0 ≠ 0xF0 := by omega
  have c5 : s0 ≠ 0xED := by omega
  have c6 : s0 ≠ 0xF4 := by omega
  have c7 : ¬ (s1 < 0x80 ∨ 0xBF < s1) := by omega
  simp only [DecodeRuneInString, c1, c2, c3, c4, c5, c6, c7, h0', if_false, if_true, e,
    List.length_cons]
  simp

/-- The three bytes `AppendRune` writes for a valid rune from U+0800 to
U+FFFF. -/
theorem AppendRune_three (r : Nat) (h1 : 0x800 ≤ r) (h2 : r ≤ 0xFFFF)
    (hv : ValidRune r = true) :
    AppendRune r = [0xE0 + r / 4096, 0x80 + r / 64 % 64, 0x80 + r % 64] := by
  have a : ¬ r ≤ 0x7F := by omega
  have b : ¬ r ≤ 0x7FF := by omega
  have e0 : 0xE0 ||| (r >>> 12) = 0xE0 + r / 4096 := by
    rw [Nat.shiftRight_eq_div_pow]
    exact or_low 5 7 (r / 2 ^ 12) (by norm_num; omega)
  have e1 : 0x80 ||| ((r >>> 6) &&& 0x3F) = 0x80 + r / 64 % 64 := by
    rw [and_63, Nat.shiftRight_eq_div_pow]
    exact or_low 7 1 (r / 2 ^ 6 % 64) (by norm_num; omega)
  have e2 : 0x80 ||| (r &&& 0x3F) = 0x80 + r % 64 := by
    rw [and_63]
    exact or_low 7 1 (r % 64) (by norm_num; omega)
  simp only [AppendRune, a, b, if_false, hv, Bool.not_true, Bool.false_eq_true, h2, if_true,
    e0, e1, e2]

/-- The four bytes `AppendRune` writes for a rune from U+10000 to U+10FFFF. -/
theorem AppendRune_four (r : Nat) (h1 : 0x10000 ≤ r) (h2 : r ≤ 0x10FFFF) :
    AppendRune r
      = [0xF0 + r / 262144, 0x80 + r / 4096 % 64, 0x80 + r / 64 % 64, 0x80 + r % 64] := by
  have a : ¬ r ≤ 0x7F := by omega
  have b : ¬ r ≤ 0x7FF := by omega
  have c : ¬ r ≤ 0xFFFF := by omega
  have hv : ValidRune r = true := by
    simp only [ValidRune, Bool.or_eq_true, Bool.and_eq_true, decide_eq_true_eq]; omega
  have e0 : 0xF0 ||| (r >>> 18) = 0xF0 + r / 262144 := by
    rw [Nat.shiftRight_eq_div_pow]
    exact or_low 4 15 (r / 2 ^ 18) (by norm_num; omega)
  have e1 : 0x80 ||| ((r >>> 12) &&& 0x3F) = 0x80 + r / 4096 % 64 := by
    rw [and_63, Nat.shiftRight_eq_div_pow]
    exact or_low 7 1 (r / 2 ^ 12 % 64) (by norm_num; omega)
  have e2 : 0x80 ||| ((r >>> 6) &&& 0x3F) = 0x80 + r / 64 % 64 := by
    rw [and_63, Nat.shiftRight_eq_div_pow]
    exact or_low 7 1 (r / 2 ^ 6 % 64) (by norm_num; omega)
  have e3 : 0x80 ||| (r &&& 0x3F) = 0x80 + r % 64 := by
    rw [and_63]
    exact or_low 7 1 (r % 64) (by norm_num; omega)
  simp only [AppendRune, a, b, c, if_false, hv, Bool.not_true, Bool.false_eq_true,
    e0, e1, e2, e3]

/-- The decoder on a well-formed sequence of three bytes. -/
theorem decode_three (s0 s1 s2 : Nat) (t : GoString) (h0 : 0xE0 ≤ s0) (h0' : s0 < 0xF0)
    (h1 : (if s0 = 0xE0 then 0xA0 else 0x80) ≤ s1)
    (h1' : s1 ≤ (if s0 = 0xED then 0x9F else 0xBF))
    (h2 : 0x80 ≤ s2) (h2' : s2 ≤ 0xBF) :
    DecodeRuneInString (s0 :: s1 :: s2 :: t)
      = ((s0 - 0xE0) * 4096 + (s1 - 0x80) * 64 + (s2 - 0x80), 3) := by
  have hs1 : 0x80 ≤ s1 ∧ s1 ≤ 0xBF := by split_ifs at h1 h1' <;> omega
  have e : ((s0 &&& 0x0F) <<< 12) ||| ((s1 &&& 0x3F) <<< 6) ||| (s2 &&& 0x3F)
      = (s0 - 0xE0) * 4096 + (s1 - 0x80) * 64 + (s2 - 0x80) := by
    rw [and_15, and_63, and_63, Nat.shiftLeft_eq, Nat.shiftLeft_eq,
      Nat.mul_comm (s0 % 16), or_low 12 _ _ (by norm_num; omega)]
    have : 2 ^ 12 * (s0 % 16) + s1 % 64 * 2 ^ 6 = 2 ^ 6 * (64 * (s0 % 16) + s1 % 64) := by
      norm_num; omega
    rw [this, or_low 6 _ _ (by norm_num; omega)]
    omega
  have c1 : ¬ s0 < 0x80 := by omega
  have c2 : ¬ (s0 < 0xC2 ∨ 0xF4 < s0) := by omega
  have c3 : ¬ s0 < 0xE0 := by omega
  have c4 : s0 ≠ 0xF0 := by omega
  have c6 : s0 ≠ 0xF4 := by omega
  have c7 : ¬ (s1 < (if s0 = 0xE0 then 0xA0 else 0x80)
      ∨ (if s0 = 0xED then 0x9F else 0xBF) < s1) := by omega
  have c8 : isCont s2 = true := by simp [isCont, h2, h2']
  simp only [DecodeRuneInString, c1, c2, c3, c4, c6, c7, c8, h0', if_false, if_true, e,
    List.length_cons]
  simp

/-- The decoder on a well-formed sequence of four bytes. -/
theorem decode_four (s0 s1 s2 s3 : Nat) (t : GoString) (h0 : 0xF0 ≤ s0) (h0' : s0 ≤ 0xF4)
    (h1 : (if s0 = 0xF0 then 0x90 else 0x80) ≤ s1)
    (h1' : s1 ≤ (if s0 = 0xF4 then 0x8F else 0xBF))
    (h2 : 0x80 ≤ s2) (h2' : s2 ≤ 0xBF) (h3 : 0x80 ≤ s3) (h3' : s3 ≤ 0xBF) :
    DecodeRuneInString (s0 :: s1 :: s2 :: s3 :: t)
      = ((s0 - 0xF0) * 262144 + (s1 - 0x80) * 4096 + (s2 - 0x80) * 64 + (s3 - 0x80), 4) := by
  have hs1 : 0x80 ≤ s1 ∧ s1 ≤ 0xBF := by split_ifs at h1 h1' <;> omega
  have e : ((s0 &&& 0x07) <<< 18) ||| ((s1 &&& 0x3F) <<< 12) ||| ((s2 &&& 0x3F) <<< 6)
        ||| (s3 &&& 0x3F)
      = (s0 - 0xF0) * 262144 + (s1 - 0x80) * 4096 + (s2 - 0x80) * 64 + (s3 - 0x80) := by
    rw [and_7, and_63, and_63, and_63, Nat.shiftLeft_eq, Nat.shiftLeft_eq, Nat.shiftLeft_eq]
    rw [or_sum 18 (s0 % 8) (s1 % 64 * 2 ^ 12) _ (by norm_num; omega) (by norm_num; omega)]
    rw [or_sum 12 (64 * (s0 % 8) + s1 % 64) (s2 % 64 * 2 ^ 6) _ (by norm_num; omega)
      (by norm_num; omega)]
    rw [or_sum 6 (4096 * (s0 % 8) + 64 * (s1 % 64) + s2 % 64) (s3 % 64) _
      (by norm_num; omega) (by norm_num; omega)]
    omega
  have c1 : ¬ s0 < 0x80 := by omega
  have c2 : ¬ (s0 < 0xC2 ∨ 0xF4 < s0) := by omega
  have c3 : ¬ s0 < 0xE0 := by omega
  have c3' : ¬ s0 < 0xF0 := by omega
  have c4 : s0 ≠ 0xE0 := by omega
  have c6 : s0 ≠ 0xED := by omega
  have c7 : ¬ (s1 < (if s0 = 0xF0 then 0x90 else 0x80)
      ∨ (if s0 = 0xF4 then 0x8F else 0xBF) < s1) := by omega
  have c8 : isCont s2 = true := by simp [isCont, h2, h2']
  have c9 : isCont s3 = true := by simp [isCont, h3, h3']
  simp only [DecodeRuneInString, c1, c2, c3, c3', c4, c6, c7, c8, c9, if_false, if_true, e,
    List.length_cons]
  simp

/-- One turn of the loop of `Quote` on a rune of two bytes or more. -/
theorem quoteLoop_cons (tbl : Nat → Bool) (n s0 r w : Nat) (t : GoString)
    (h0 : 0x80 ≤ s0) (hd : DecodeRuneInString (s0 :: t) = (r, w)) (hw : w ≠ 1) :
    quoteLoop tbl (n + 1) (s0 :: t)
      = appendEscapedRune tbl r ++ quoteLoop tbl n ((s0 :: t).drop w) := by
  rw [quoteLoop]
  simp only [h0, if_true, hd, hw, false_and, if_false]

/-- A plain rune is written by `appendEscapedRune` as its UTF-8 encoding. -/
theorem appendEscapedRune_plainRune (tbl : Nat → Bool) (r : Nat)
    (h : plainRune tbl r = true) : appendEscapedRune tbl r = AppendRune r := by
  simp only [plainRune, Bool.and_eq_true, decide_eq_true_eq] at h
  obtain ⟨⟨⟨-, hp⟩, h3⟩, h4⟩ := h
  have hq : ¬ (r = 0x22 ∨ r = 0x5C) := by omega
  simp only [appendEscapedRune, hq, if_false, hp, if_true]

/-- One turn of the loop of `Quote` on the encoding of a plain rune: the
encoding is copied and the loop goes on after it. -/
theorem quoteLoop_step (tbl : Nat → Bool) (n r : Nat) (rest : GoString)
    (h : plainRune tbl r = true) :
    quoteLoop tbl (n + 1) (AppendRune r ++ rest) = AppendRune r ++ quoteLoop tbl n rest := by
  have hesc := appendEscapedRune_plainRune tbl r h
  have hv : ValidRune r = true := by
    simp only [plainRune, Bool.and_eq_true] at h
    exact h.1.1.1
  have hv' := hv
  simp only [ValidRune, Bool.or_eq_true, Bool.and_eq_true, decide_eq_true_eq] at hv'
  by_cases h1 : r ≤ 0x7F
  · have ha : AppendRune r = [r] := by simp [AppendRune, h1]
    have c1 : ¬ 0x80 ≤ r := by omega
    have c2 : ¬ (True ∧ r = RuneError) := by simp only [RuneError]; omega
    rw [ha] at hesc ⊢
    show quoteLoop tbl (n + 1) (r :: rest) = r :: quoteLoop tbl n rest
    rw [quoteLoop]
    simp only [c1, if_false, hesc, List.drop_succ_cons, List.drop_zero, c2]
    rfl
  · by_cases h2 : r ≤ 0x7FF
    · have ha := AppendRune_two r (by omega) h2
      have hd := decode_two (0xC0 + r / 64) (0x80 + r % 64) rest (by omega) (by omega)
        (by omega) (by omega)
      have hr : (0xC0 + r / 64 - 0xC0) * 64 + (0x80 + r % 64 - 0x80) = r := by omega
      rw [hr] at hd
      have c1 : 0x80 ≤ 0xC0 + r / 64 := by omega
      rw [ha] at hesc ⊢
      show quoteLoop tbl (n + 1) (_ :: _ :: rest) = _
      rw [quoteLoop_cons tbl n _ r 2 _ c1 hd (by decide), hesc]
      rfl
    · by_cases h3 : r ≤ 0xFFFF
      · have ha := AppendRune_three r (by omega) h3 hv
        have hd := decode_three (0xE0 + r / 4096) (0x80 + r / 64 % 64) (0x80 + r % 64) rest
          (by omega) (by omega) (by split_ifs <;> omega) (by split_ifs <;> omega)
          (by omega) (by omega)
        have hr : (0xE0 + r / 4096 - 0xE0) * 4096 + (0x80 + r / 64 % 64 - 0x80) * 64
            + (0x80 + r % 64 - 0x80) = r := by omega
        rw [hr] at hd
        have c1 : 0x80 ≤ 0xE0 + r / 4096 := by omega
        rw [ha] at hesc ⊢
        show quoteLoop tbl (n + 1) (_ :: _ :: _ :: rest) = _
        rw [quoteLoop_cons tbl n _ r 3 _ c1 hd (by decide), hesc]
        rfl
      · have ha := AppendRune_four r (by omega) (by omega)
        have hd := decode_four (0xF0 + r / 262144) (0x80 + r / 4096 % 64)
          (0x80 + r / 64 % 64) (0x80 + r % 64) rest
          (by omega) (by omega) (by split_ifs <;> omega) (by split_ifs <;> omega)
          (by omega) (by omega) (by omega) (by omega)
        have hr : (0xF0 + r / 262144 - 0xF0) * 262144 + (0x80 + r / 4096 % 64 - 0x80) * 4096
            + (0x80 + r / 64 % 64 - 0x80) * 64 + (0x80 + r % 64 - 0x80) = r := by omega
        rw [hr] at hd
        have c1 : 0x80 ≤ 0xF0 + r / 262144 := by omega
        rw [ha] at hesc ⊢
        show quoteLoop tbl (n + 1) (_ :: _ :: _ :: _ :: rest) = _
        rw [quoteLoop_cons tbl n _ r 4 _ c1 hd (by decide), hesc]
        rfl

/-- `AppendRune` writes at least one byte. -/
theorem AppendRune_length_pos (r : Nat) : 1 ≤ (AppendRune r).length := by
  unfold AppendRune
  split_ifs <;> simp

/-- The loop of `Quote` copies the encoding of plain runes. -/
theorem quoteLoop_plainRunes (tbl : Nat → Bool) (rs : List Nat)
    (hs : ∀ r ∈ rs, plainRune tbl r = true) (n : Nat) (hn : (encodeRunes rs).length ≤ n) :
    quoteLoop tbl n (encodeRunes rs) = encodeRunes rs := by
  induction rs generalizing n with
  | nil => cases n <;> rfl
  | cons r rs ih =>
    have hpos := AppendRune_length_pos r
    simp only [encodeRunes, List.length_append] at hn ⊢
    cases n with
    | zero => omega
    | succ n =>
      rw [quoteLoop_step tbl n r _ (hs r (List.mem_cons_self _ _)),
        ih (fun x hx => hs x (List.mem_cons_of_mem _ hx)) n (by omega)]

/-- `%q` of the encoding of plain runes: the text between two double quotes. -/
theorem Quote_plainRunes (tbl : Nat → Bool) (rs : List Nat)
    (hs : ∀ r ∈ rs, plainRune tbl r = true) :
    Quote tbl (encodeRunes rs) = [0x22] ++ encodeRunes rs ++ [0x22] := by
  rw [Quote, quoteLoop_plainRunes tbl rs hs _ (Nat.le_refl _)]

/-- The decoder on a text whose first byte is not ASCII: either the byte is
rejected, or the first `w ≥ 2` bytes are the encoding of a valid rune from
U+0080 on. -/
theorem DecodeRuneInString_cases (s0 : Nat) (t : GoString) (h0 : 0x80 ≤ s0) :
    DecodeRuneInString (s0 :: t) = (RuneError, 1) ∨
    ∃ r w rest, DecodeRuneInString (s0 :: t) = (r, w) ∧ w ≠ 1 ∧
      s0 :: t = AppendRune r ++ rest ∧ (s0 :: t).drop w = rest ∧
      ValidRune r = true ∧ 0x80 ≤ r := by
  have c1 : ¬ s0 < 0x80 := by omega
  by_cases hbad : s0 < 0xC2 ∨ 0xF4 < s0
  · left
    simp only [DecodeRuneInString, c1, if_false, hbad, if_true]
  by_cases h2 : s0 < 0xE0
  · -- two bytes
    cases t with
    | nil => left; simp [DecodeRuneInString, c1, hbad, h2]
    | cons s1 t1 =>
      by_cases hs1 : 0x80 ≤ s1 ∧ s1 ≤ 0xBF
      · right
        have hd := decode_two s0 s1 t1 (by omega) h2 hs1.1 hs1.2
        have hr1 : 0x80 ≤ (s0 - 0xC0) * 64 + (s1 - 0x80) := by omega
        have hr2 : (s0 - 0xC0) * 64 + (s1 - 0x80) ≤ 0x7FF := by omega
        refine ⟨_, 2, t1, hd, by decide, ?_, rfl, ?_, hr1⟩
        · rw [AppendRune_two _ hr1 hr2]
          have e0 : 0xC0 + ((s0 - 0xC0) * 64 + (s1 - 0x80)) / 64 = s0 := by omega
          have e1 : 0x80 + ((s0 - 0xC0) * 64 + (s1 - 0x80)) % 64 = s1 := by omega
          rw [e0, e1]; rfl
        · simp only [ValidRune, Bool.or_eq_true, Bool.and_eq_true, decide_eq_true_eq]; omega
      · left
        have c3 : s0 ≠ 0xE0 := by omega
        have c4 : s0 ≠ 0xF0 := by omega
        have c5 : s0 ≠ 0xED := by omega
        have c6 : s0 ≠ 0xF4 := by omega
        have c7 : s1 < 0x80 ∨ 0xBF < s1 := by omega
        simp only [DecodeRuneInString, c1, hbad, h2, c3, c4, c5, c6, c7, if_false, if_true,
          List.length_cons]
        simp
  by_cases h3 : s0 < 0xF0
  · -- three bytes
    have c3 : s0 ≠ 0xF0 := by omega
    have c4 : s0 ≠ 0xF4 := by omega
    match t with
    | [] => left; simp [DecodeRuneInString, c1, hbad, h2, h3]
    | [s1] => left; simp [DecodeRuneInString, c1, hbad, h2, h3]
    | s1 :: s2 :: t2 =>
      by_cases hs1 : (if s0 = 0xE0 then 0xA0 else 0x80) ≤ s1
          ∧ s1 ≤ (if s0 = 0xED then 0x9F else 0xBF)
      · by_cases hs2 : 0x80 ≤ s2 ∧ s2 ≤ 0xBF
        · right
          have hd := decode_three s0 s1 s2 t2 (by omega) h3 hs1.1 hs1.2 hs2.1 hs2.2
          have hs1' : 0x80 ≤ s1 ∧ s1 ≤ 0xBF ∧ (s0 = 0xE0 → 0xA0 ≤ s1)
              ∧ (s0 = 0xED → s1 ≤ 0x9F) := by
            obtain ⟨a, b⟩ := hs1
            split_ifs at a b <;> omega
          have hr1 : 0x800 ≤ (s0 - 0xE0) * 4096 + (s1 - 0x80) * 64 + (s2 - 0x80) := by omega
          have hr2 : (s0 - 0xE0) * 4096 + (s1 - 0x80) * 64 + (s2 - 0x80) ≤ 0xFFFF := by omega
          have hv : ValidRune ((s0 - 0xE0) * 4096 + (s1 - 0x80) * 64 + (s2 - 0x80)) = true := by
            simp only [ValidRune, Bool.or_eq_true, Bool.and_eq_true, decide_eq_true_eq]; omega
          refine ⟨_, 3, t2, hd, by decide, ?_, rfl, hv, by omega⟩
          rw [AppendRune_three _ hr1 hr2 hv]
          have e0 : 0xE0 + ((s0 - 0xE0) * 4096 + (s1 - 0x80) * 64 + (s2 - 0x80)) / 4096 = s0 := by
            omega
          have e1 : 0x80 + ((s0 - 0xE0) * 4096 + (s1 - 0x80) * 64 + (s2 - 0x80)) / 64 % 64
              = s1 := by omega
          have e2 : 0x80 + ((s0 - 0xE0) * 4096 + (s1 - 0x80) * 64 + (s2 - 0x80)) % 64 = s2 := by
            omega
          rw [e0, e1, e2]; rfl
        · left
          have c8 : isCont s2 = false := by
            simp only [isCont, Bool.and_eq_false_iff, decide_eq_false_iff_not]; omega
          have c7 : ¬ (s1 < (if s0 = 0xE0 then 0xA0 else 0x80)
              ∨ (if s0 = 0xED then 0x9F else 0xBF) < s1) := by omega
          simp only [DecodeRuneInString, c1, hbad, h2, h3, c3, c4, c7, c8, if_false, if_true,
            List.length_cons]
          simp
      · left
        have c7 : s1 < (if s0 = 0xE0 then 0xA0 else 0x80)
            ∨ (if s0 = 0xED then 0x9F else 0xBF) < s1 := by omega
        simp only [DecodeRuneInString, c1, hbad, h2, h3, c3, c4, c7, if_false, if_true,
          List.length_cons]
        simp
  · -- four bytes
    have c3 : s0 ≠ 0xE0 := by omega
    have c4 : s0 ≠ 0xED := by omega
    match t with
    | [] => left; simp [DecodeRuneInString, c1, hbad, h2, h3]
    | [s1] => left; simp [DecodeRuneInString, c1, hbad, h2, h3]
    | [s1, s2] => left; simp [DecodeRuneInString, c1, hbad, h2, h3]
    | s1 :: s2 :: s3 :: t3 =>
      by_cases hs1 : (if s0 = 0xF0 then 0x90 else 0x80) ≤ s1
          ∧ s1 ≤ (if s0 = 0xF4 then 0x8F else 0xBF)
      · by_cases hs2 : 0x80 ≤ s2 ∧ s2 ≤ 0xBF
        · by_cases hs3 : 0x80 ≤ s3 ∧ s3 ≤ 0xBF
          · right
            have hd := decode_four s0 s1 s2 s3 t3 (by omega) (by omega) hs1.1 hs1.2
              hs2.1 hs2.2 hs3.1 hs3.2
            have hs1' : 0x80 ≤ s1 ∧ s1 ≤ 0xBF ∧ (s0 = 0xF0 → 0x90 ≤ s1)
                ∧ (s0 = 0xF4 → s1 ≤ 0x8F) := by
              obtain ⟨a, b⟩ := hs1
              split_ifs at a b <;> omega
            have hr1 : 0x10000 ≤ (s0 - 0xF0) * 262144 + (s1 - 0x80) * 4096 + (s2 - 0x80) * 64
                + (s3 - 0x80) := by omega
            have hr2 : (s0 - 0xF0) * 262144 + (s1 - 0x80) * 4096 + (s2 - 0x80) * 64
                + (s3 - 0x80) ≤ 0x10FFFF := by omega
            refine ⟨_, 4, t3, hd, by decide, ?_, rfl, ?_, by omega⟩
            · rw [AppendRune_four _ hr1 hr2]
              have e0 : 0xF0 + ((s0 - 0xF0) * 262144 + (s1 - 0x80) * 4096 + (s2 - 0x80) * 64
                  + (s3 - 0x80)) / 262144 = s0 := by omega
              have e1 : 0x80 + ((s0 - 0xF0) * 262144 + (s1 - 0x80) * 4096 + (s2 - 0x80) * 64
                  + (s3 - 0x80)) / 4096 % 64 = s1 := by omega
              have e2 : 0x80 + ((s0 - 0xF0) * 262144 + (s1 - 0x80) * 4096 + (s2 - 0x80) * 64
                  + (s3 - 0x80)) / 64 % 64 = s2 := by omega
              have e3 : 0x80 + ((s0 - 0xF0) * 262144 + (s1 - 0x80) * 4096 + (s2 - 0x80) * 64
                  + (s3 - 0x80)) % 64 = s3 := by omega
              rw [e0, e1, e2, e3]; rfl
            · simp only [ValidRune, Bool.or_eq_true, Bool.and_eq_true, decide_eq_true_eq]
              omega
          · left
            have c8 : isCont s2 = true := by simp [isCont, hs2.1, hs2.2]
            have c9 : isCont s3 = false := by
              simp only [isCont, Bool.and_eq_false_iff, decide_eq_false_iff_not]; omega
            have c7 : ¬ (s1 < (if s0 = 0xF0 then 0x90 else 0x80)
                ∨ (if s0 = 0xF4 then 0x8F else 0xBF) < s1) := by omega
            simp only [DecodeRuneInString, c1, hbad, h2, h3, c3, c4, c7, c8, c9, if_false,
              if_true, List.length_cons]
            simp
        · left
          have c8 : isCont s2 = false := by
            simp only [isCont, Bool.and_eq_false_iff, decide_eq_false_iff_not]; omega
          have c7 : ¬ (s1 < (if s0 = 0xF0 then 0x90 else 0x80)
              ∨ (if s0 = 0xF4 then 0x8F else 0xBF) < s1) := by omega
          simp only [DecodeRuneInString, c1, hbad, h2, h3, c3, c4, c7, c8, if_false, if_true,
            List.length_cons]
          simp
      · left
        have c7 : s1 < (if s0 = 0xF0 then 0x90 else 0x80)
            ∨ (if s0 = 0xF4 then 0x8F else 0xBF) < s1 := by omega
        simp only [DecodeRuneInString, c1, hbad, h2, h3, c3, c4, c7, if_false, if_true,
          List.length_cons]
        simp

/-- `AppendRune` writes at most four bytes. -/
theorem AppendRune_length_le (r : Nat) : (AppendRune r).length ≤ 4 := by
  unfold AppendRune
  split_ifs <;> simp

/-- The length of a `\\x` escape. -/
theorem len_esc2 (a b : Nat) : (ascii "\\x" ++ [a, b]).length = 4 := rfl

/-- The length of a `\\u` escape. -/
theorem len_esc4 (a b c d : Nat) : (ascii "\\u" ++ [a, b, c, d]).length = 6 := rfl

/-- The length of a `\\U` escape. -/
theorem len_esc8 (a b c d e f g h : Nat) :
    (ascii "\\U" ++ [a, b, c, d, e, f, g, h]).length = 10 := rfl

/-- A rune that is not copied is written as an escape sequence of two bytes
or more, and of six bytes or more outside ASCII. -/
theorem appendEscapedRune_length (tbl : Nat → Bool) (r : Nat)
    (h : IsPrint tbl r = false ∨ r = 0x22 ∨ r = 0x5C) :
    2 ≤ (appendEscapedRune tbl r).length ∧
    (0x80 ≤ r → 6 ≤ (appendEscapedRune tbl r).length) := by
  unfold appendEscapedRune
  by_cases hq : r = 0x22 ∨ r = 0x5C
  · simp only [hq, if_true]
    refine ⟨by simp, fun h80 => ?_⟩
    omega
  · have hp : IsPrint tbl r = false := by
      rcases h with h | h | h
      · exact h
      · exact absurd (Or.inl h) hq
      · exact absurd (Or.inr h) hq
    simp only [hq, if_false, hp, Bool.false_eq_true]
    by_cases h1 : r = 7
    · rw [if_pos h1]; exact ⟨by decide, fun _ => by omega⟩
    rw [if_neg h1]
    by_cases h2 : r = 8
    · rw [if_pos h2]; exact ⟨by decide, fun _ => by omega⟩
    rw [if_neg h2]
    by_cases h3 : r = 12
    · rw [if_pos h3]; exact ⟨by decide, fun _ => by omega⟩
    rw [if_neg h3]
    by_cases h4 : r = 10
    · rw [if_pos h4]; exact ⟨by decide, fun _ => by omega⟩
    rw [if_neg h4]
    by_cases h5 : r = 13
    · rw [if_pos h5]; exact ⟨by decide, fun _ => by omega⟩
    rw [if_neg h5]
    by_cases h6 : r = 9
    · rw [if_pos h6]; exact ⟨by decide, fun _ => by omega⟩
    rw [if_neg h6]
    by_cases h7 : r = 11
    · rw [if_pos h7]; exact ⟨by decide, fun _ => by omega⟩
    rw [if_neg h7]
    by_cases h8 : r < 0x20 ∨ r = 0x7F
    · rw [if_pos h8, len_esc2]; exact ⟨by omega, fun _ => by omega⟩
    rw [if_neg h8]
    split_ifs <;>
      first
        | (rw [len_esc4]; exact ⟨by omega, fun _ => by omega⟩)
        | (rw [len_esc8]; exact ⟨by omega, fun _ => by omega⟩)

/-- One turn of the loop of `Quote`: it consumes a non-empty beginning `pre`
of the text and writes `out`; either `pre` is the encoding of a plain rune and
is copied, or `out` is longer than `pre`. -/
theorem quoteLoop_step_cases (tbl : Nat → Bool) (n s0 : Nat) (t : GoString) :
    ∃ pre rest out, s0 :: t = pre ++ rest ∧ 1 ≤ pre.length ∧
      quoteLoop tbl (n + 1) (s0 :: t) = out ++ quoteLoop tbl n rest ∧
      ((∃ r, plainRune tbl r = true ∧ pre = AppendRune r ∧ out = pre)
        ∨ pre.length < out.length) := by
  by_cases h0 : 0x80 ≤ s0
  · rcases DecodeRuneInString_cases s0 t h0 with hbad | ⟨r, w, rest, hd, hw, hs, hdrop, hv, hr⟩
    · refine ⟨[s0], t, ascii "\\x" ++ [lowerhex (s0 >>> 4), lowerhex (s0 &&& 0xF)], rfl,
        by simp, ?_, Or.inr (by simp [ascii])⟩
      rw [quoteLoop]
      simp only [h0, if_true, hbad, and_self]
    · refine ⟨AppendRune r, rest, appendEscapedRune tbl r, hs, AppendRune_length_pos r, ?_, ?_⟩
      · rw [quoteLoop_cons tbl n s0 r w t h0 hd hw, hdrop]
      · by_cases hp : plainRune tbl r = true
        · exact Or.inl ⟨r, hp, rfl, appendEscapedRune_plainRune tbl r hp⟩
        · right
          have hnp : IsPrint tbl r = false ∨ r = 0x22 ∨ r = 0x5C := by
            simp only [plainRune, hv, Bool.true_and, Bool.and_eq_true, decide_eq_true_eq,
              not_and_or, Bool.not_eq_true, not_not] at hp
            rcases hp with (hp | hp) | hp
            · exact Or.inl hp
            · exact Or.inr (Or.inl hp)
            · exact Or.inr (Or.inr hp)
          have := (appendEscapedRune_length tbl r hnp).2 hr
          have := AppendRune_length_le r
          omega
  · have c2 : ¬ (True ∧ s0 = RuneError) := by simp only [RuneError]; omega
    have hstep : quoteLoop tbl (n + 1) (s0 :: t)
        = appendEscapedRune tbl s0 ++ quoteLoop tbl n t := by
      rw [quoteLoop]
      simp only [h0, if_false, c2, List.drop_succ_cons, List.drop_zero]
    have ha : AppendRune s0 = [s0] := by
      have : s0 ≤ 0x7F := by omega
      simp [AppendRune, this]
    refine ⟨[s0], t, appendEscapedRune tbl s0, rfl, by simp, hstep, ?_⟩
    by_cases hp : plainRune tbl s0 = true
    · exact Or.inl ⟨s0, hp, ha.symm, (appendEscapedRune_plainRune tbl s0 hp).trans ha⟩
    · right
      have hv : ValidRune s0 = true := by
        simp only [ValidRune, Bool.or_eq_true, Bool.and_eq_true, decide_eq_true_eq]; omega
      have hnp : IsPrint tbl s0 = false ∨ s0 = 0x22 ∨ s0 = 0x5C := by
        simp only [plainRune, hv, Bool.true_and, Bool.and_eq_true, decide_eq_true_eq,
          not_and_or, Bool.not_eq_true, not_not] at hp
        rcases hp with (hp | hp) | hp
        · exact Or.inl hp
        · exact Or.inr (Or.inl hp)
        · exact Or.inr (Or.inr hp)
      have := (appendEscapedRune_length tbl s0 hnp).1
      simp only [List.length_singleton]
      omega

/-- The loop of `Quote` never writes less than it reads, and writes as much
only for the encoding of plain runes. -/
theorem quoteLoop_length (tbl : Nat → Bool) (n : Nat) :
    ∀ s : GoString, s.length ≤ n →
      s.length ≤ (quoteLoop tbl n s).length ∧
      ((quoteLoop tbl n s).length = s.length →
        ∃ rs, (∀ r ∈ rs, plainRune tbl r = true) ∧ s = encodeRunes rs) := by
  induction n with
  | zero =>
    intro s hs
    have : s = [] := List.eq_nil_of_length_eq_zero (by omega)
    subst this
    exact ⟨Nat.le_refl _, fun _ => ⟨[], by simp, rfl⟩⟩
  | succ n ih =>
    intro s hs
    cases s with
    | nil => exact ⟨Nat.zero_le _, fun _ => ⟨[], by simp, rfl⟩⟩
    | cons s0 t =>
      obtain ⟨pre, rest, out, hsplit, hpre, hstep, hcase⟩ := quoteLoop_step_cases tbl n s0 t
      have hlen : (s0 :: t).length = pre.length + rest.length := by
        rw [hsplit, List.length_append]
      obtain ⟨ih1, ih2⟩ := ih rest (by omega)
      have hout : pre.length ≤ out.length := by
        rcases hcase with ⟨r, -, -, ho⟩ | hlt
        · rw [ho]
        · omega
      rw [hstep, List.length_append, hlen]
      refine ⟨by omega, fun heq => ?_⟩
      rcases hcase with ⟨r, hp, hpr, ho⟩ | hlt
      · obtain ⟨rs, hrs, hrest⟩ := ih2 (by rw [ho] at heq; omega)
        refine ⟨r :: rs, ?_, ?_⟩
        · intro x hx
          rcases List.mem_cons.1 hx with rfl | hx
          · exact hp
          · exact hrs x hx
        · rw [hsplit, hpr, hrest]; rfl
      · omega

/-- `%q` reproduces a text between the double quotes exactly when the text
is the UTF-8 encoding of plain runes. -/
theorem Quote_verbatim_iff (tbl : Nat → Bool) (s : GoString) :
    Quote tbl s = [0x22] ++ s ++ [0x22] ↔
      ∃ rs, (∀ r ∈ rs, plainRune tbl r = true) ∧ s = encodeRunes rs := by
  constructor
  · intro h
    have hq : quoteLoop tbl s.length s = s := by
      simpa [Quote] using h
    exact (quoteLoop_length tbl s.length s (Nat.le_refl _)).2 (by rw [hq])
  · rintro ⟨rs, hrs, rfl⟩
    exact Quote_plainRunes tbl rs hrs

/-- A plain byte is written by `appendEscapedRune` as itself. -/
theorem appendEscapedRune_plain (tbl : Nat → Bool) (b : Nat) (h : plainByte b = true) :
    appendEscapedRune tbl b = [b] := by
  simp only [plainByte, Bool.and_eq_true, decide_eq_true_eq] at h
  obtain ⟨⟨⟨h1, h2⟩, h3⟩, h4⟩ := h
  have hq : ¬ (b = 0x22 ∨ b = 0x5C) := by omega
  have hp : IsPrint tbl b = true := by
    have : b ≤ 0xFF := by omega
    simp [IsPrint, this, h1, h2]
  have ha : AppendRune b = [b] := by
    have : b ≤ 0x7F := by omega
    simp [AppendRune, this]
  simp only [appendEscapedRune, hq, if_false, hp, if_true, ha]

/-- The loop of `Quote` copies a text made of plain bytes. -/
theorem quoteLoop_plain (tbl : Nat → Bool) (n : Nat) (s : GoString)
    (hn : s.length ≤ n) (hs : ∀ b ∈ s, plainByte b = true) :
    quoteLoop tbl n s = s := by
  induction s generalizing n with
  | nil => cases n <;> rfl
  | cons s0 t ih =>
    cases n with
    | zero => simp at hn
    | succ n =>
      have h0 : plainByte s0 = true := hs s0 (List.mem_cons_self _ _)
      have hb := h0
      simp only [plainByte, Bool.and_eq_true, decide_eq_true_eq] at hb
      have hlt : ¬ 0x80 ≤ s0 := by omega
      have hre : ¬ (True ∧ s0 = RuneError) := by
        simp only [RuneError]; omega
      have ht : quoteLoop tbl n t = t :=
        ih n (by simpa using hn) (fun b hb => hs b (List.mem_cons_of_mem _ hb))
      simp only [quoteLoop, hlt, if_false, appendEscapedRune_plain tbl s0 h0,
        List.drop_succ_cons, List.drop_zero, ht, hre]
      rfl

/-- `%q` of a text made of plain bytes: the text between two double quotes. -/
theorem Quote_plain (tbl : Nat → Bool) (s : GoString) (hs : ∀ b ∈ s, plainByte b = true) :
    Quote tbl s = [0x22] ++ s ++ [0x22] := by
  rw [Quote, quoteLoop_plain tbl s.length s (Nat.le_refl _) hs]

/-! ## The claims -/

/-- C1. For a `CannotError` whose `BaseError` is not nil, `Error()` is the
rendering of the same record with `BaseError = nil` (which always returns),
followed by `": "` and `TidyError(ce.BaseError)`; it returns exactly when
`TidyError` does, and the message then ends with `": "` and that text. -/
theorem CannotError_Error_embeds_cause (tbl : Nat → Bool) (ce : CannotError)
    (h : ce.BaseError ≠ .nil) :
    (∃ b, CannotError.Error tbl { ce with BaseError := .nil } = .ok b ∧
      ce.Error tbl = (TidyError tbl ce.BaseError).map (fun tidy => b ++ ascii ": " ++ tidy)) ∧
    (∀ tidy, TidyError tbl ce.BaseError = .ok tidy →
      ∃ msg, ce.Error tbl = .ok msg ∧ (ascii ": " ++ tidy) <:+ msg) := by
  have key : ∃ b, CannotError.Error tbl { ce with BaseError := .nil } = .ok b ∧
      ce.Error tbl = (TidyError tbl ce.BaseError).map (fun tidy => b ++ ascii ": " ++ tidy) := by
    rw [CannotError.Error_eq, CannotError.Error_eq]
    simp only [ne_eq, not_true_eq_false, if_false, h, not_false_eq_true, if_true]
    exact ⟨_, rfl, rfl⟩
  refine ⟨key, ?_⟩
  intro tidy ht
  obtain ⟨b, -, hb⟩ := key
  refine ⟨b ++ ascii ": " ++ tidy, ?_, ?_⟩
  · rw [hb, ht]; rfl
  · rw [List.append_assoc]
    exact List.suffix_append b _

/-- The theorem of C1 at a concrete input. -/
theorem CannotError_Error_embeds_cause_witness :
    (Cannot (ascii "open") [] (ascii "a.zip") false []
        (.errorString (ascii "zip: not a valid zip file"))).BaseError ≠ .nil ∧
    ∃ msg, CannotError.Error emptyTable (Cannot (ascii "open") [] (ascii "a.zip") false []
        (.errorString (ascii "zip: not a valid zip file"))) = .ok msg ∧
      (ascii ": " ++ ascii "not a valid zip file") <:+ msg :=
  ⟨by simp [Cannot],
    (CannotError_Error_embeds_cause emptyTable
      (Cannot (ascii "open") [] (ascii "a.zip") false []
        (.errorString (ascii "zip: not a valid zip file"))) (by simp [Cannot])).2
      (ascii "not a valid zip file")
      ((TidyError_errorString emptyTable _).trans (tidyText_zip _))⟩

/-- C2 (counterexample). With `QuoteNoun = true` and the noun `a"b`, the
message is `cannot open "a\"b"`: between the double quotes stand four bytes,
not the three of the noun. -/
theorem quoted_noun_is_escaped :
    CannotError.Error emptyTable (Cannot (ascii "open") [] (ascii "a\"b") true [] .nil)
      = .ok (ascii "cannot open \"a\\\"b\"") ∧
    CannotError.Error emptyTable (Cannot (ascii "open") [] (ascii "a\"b") true [] .nil)
      ≠ .ok (ascii "cannot open " ++ [0x22] ++ ascii "a\"b" ++ [0x22]) := by
  have h : CannotError.Error emptyTable (Cannot (ascii "open") [] (ascii "a\"b") true [] .nil)
      = .ok (ascii "cannot open \"a\\\"b\"") := by
    rw [CannotError.Error_eq]
    decide
  refine ⟨h, ?_⟩
  rw [h]
  decide

/-- C2 (amended). With `QuoteNoun = true` the noun part of `Error()` is
`strconv.Quote(Noun)`: the message is that of the same record with
`QuoteNoun = false` and the noun `Quote(Noun)`, which begins and ends with a
double quote. Between the quotes stands `Noun` unchanged exactly when `Noun`
is the UTF-8 encoding of printable runes other than the double quote and the
backslash, and so whenever every byte of `Noun` is printable ASCII other than
these two. -/
theorem CannotError_Error_quoted (tbl : Nat → Bool) (ce : CannotError)
    (hq : ce.QuoteNoun = true) :
    ce.Error tbl
      = CannotError.Error tbl { ce with QuoteNoun := false, Noun := Quote tbl ce.Noun } ∧
    (∃ inner, Quote tbl ce.Noun = [0x22] ++ inner ++ [0x22]) ∧
    (Quote tbl ce.Noun = [0x22] ++ ce.Noun ++ [0x22] ↔
      ∃ rs, (∀ r ∈ rs, plainRune tbl r = true) ∧ ce.Noun = encodeRunes rs) ∧
    ((∀ b ∈ ce.Noun, plainByte b = true) →
      Quote tbl ce.Noun = [0x22] ++ ce.Noun ++ [0x22] ∧
      ce.Error tbl
        = CannotError.Error tbl
            { ce with QuoteNoun := false, Noun := [0x22] ++ ce.Noun ++ [0x22] }) := by
  have h1 : ce.Error tbl
      = CannotError.Error tbl { ce with QuoteNoun := false, Noun := Quote tbl ce.Noun } := by
    rw [CannotError.Error_eq, CannotError.Error_eq]
    simp only [hq, if_true, Bool.false_eq_true, if_false]
  refine ⟨h1, ⟨_, rfl⟩, Quote_verbatim_iff tbl ce.Noun, fun hs => ?_⟩
  have h2 := Quote_plain tbl ce.Noun hs
  refine ⟨h2, ?_⟩
  rw [h1, h2]

/-- The theorem of C2 at a concrete input. -/
theorem CannotError_Error_quoted_witness :
    (Cannot (ascii "fetch") [] (ascii "http://a/b?c=d") true [] .nil).QuoteNoun = true ∧
    (∀ b ∈ (Cannot (ascii "fetch") [] (ascii "http://a/b?c=d") true [] .nil).Noun,
      plainByte b = true) ∧
    CannotError.Error emptyTable (Cannot (ascii "fetch") [] (ascii "http://a/b?c=d") true [] .nil)
      = .ok (ascii "cannot fetch \"http://a/b?c=d\"") :=
  ⟨rfl, by decide,
    ((CannotError_Error_quoted emptyTable
      (Cannot (ascii "fetch") [] (ascii "http://a/b?c=d") true [] .nil) rfl).2.2.2
        (by decide)).2.trans
      (by rw [CannotError.Error_eq]; decide)⟩

/-- C3 (failing input). On `errors.New("EOF")`, whose `Error()` returns the
three bytes `EOF`, and on an error with the empty text, `TidyError` does not
return the text: it panics at `text[:5]`, slice bounds out of range. -/
theorem TidyError_panics_on_EOF (tbl : Nat → Bool) :
    GoError.Error tbl (.errorString (ascii "EOF")) = .ok (ascii "EOF") ∧
    TidyError tbl (.errorString (ascii "EOF")) = .error (.sliceHigh 5 3) ∧
    TidyError tbl (.errorString []) = .error (.sliceHigh 5 0) :=
  ⟨Error_errorString tbl _,
    (TidyError_errorString tbl _).trans (tidyText_short _ (by decide)),
    (TidyError_errorString tbl _).trans (tidyText_short _ (by decide))⟩

/-- C4 (failing input). `errors.New("gone")` is neither a path error nor a
URL parse error and its text does not begin with `"zip: "`, yet `TidyError`
does not return its text: it panics at `text[:5]`. -/
theorem TidyError_not_Error_on_short_text (tbl : Nat → Bool) :
    isPathErr (.errorString (ascii "gone")) = false ∧
    isParseErr (.errorString (ascii "gone")) = false ∧
    HasPrefix (ascii "gone") (ascii "zip: ") = false ∧
    GoError.Error tbl (.errorString (ascii "gone")) = .ok (ascii "gone") ∧
    TidyError tbl (.errorString (ascii "gone")) = .error (.sliceHigh 5 4) ∧
    TidyError tbl (.errorString (ascii "gone"))
      ≠ GoError.Error tbl (.errorString (ascii "gone")) := by
  have h1 : GoError.Error tbl (.errorString (ascii "gone")) = .ok (ascii "gone") :=
    Error_errorString tbl _
  have h2 : TidyError tbl (.errorString (ascii "gone")) = .error (.sliceHigh 5 4) :=
    TidyError_short tbl (.errorString (ascii "gone")) _ rfl rfl h1 (by decide)
  refine ⟨rfl, rfl, by decide, h1, h2, ?_⟩
  rw [h1, h2]
  exact fun h => Except.noConfusion h

/-- C5 (failing input). For the parse error of `url.Parse("http://u^@h/")`,
whose cause has the text `"net/url: invalid userinfo"`, `TidyError` removes
the seven bytes `net/url` and leaves `": invalid userinfo"`, not
`"invalid userinfo"`. -/
theorem TidyError_parse_keeps_colon (tbl : Nat → Bool) :
    TidyError tbl (.urlError (ascii "parse") (ascii "http://u^@h/")
        (.errorString (ascii "net/url: invalid userinfo")))
      = .ok (ascii ": invalid userinfo") ∧
    TidyError tbl (.urlError (ascii "parse") (ascii "http://u^@h/")
        (.errorString (ascii "net/url: invalid userinfo")))
      ≠ .ok (ascii "invalid userinfo") := by
  have h : TidyError tbl (.urlError (ascii "parse") (ascii "http://u^@h/")
        (.errorString (ascii "net/url: invalid userinfo")))
      = .ok (ascii ": invalid userinfo") := by
    rw [TidyError_parse, Error_errorString]
    decide
  refine ⟨h, ?_⟩
  rw [h]
  decide

/-- C6. For a URL error of operation `parse` whose cause has the text
`"net/url: invalid control character in URL"`, `TidyError` returns
`": invalid control character in URL"`; for every cause whose text begins
with `"net/url: "` the result is that text without its first seven bytes,
whatever follows them. -/
theorem TidyError_parse_drops_seven (tbl : Nat → Bool) :
    (∀ url, TidyError tbl (.urlError (ascii "parse") url
        (.errorString (ascii "net/url: invalid control character in URL")))
      = .ok (ascii ": invalid control character in URL")) ∧
    (∀ url err text, GoError.Error tbl err = .ok text →
      HasPrefix text (ascii "net/url: ") = true →
      TidyError tbl (.urlError (ascii "parse") url err) = .ok (text.drop 7) ∧
      (ascii "net/url").length = 7 ∧
      ∀ rest, text = ascii "net/url: " ++ rest → text.drop 7 = ascii ": " ++ rest) := by
  have gen : ∀ url err text, GoError.Error tbl err = .ok text →
      HasPrefix text (ascii "net/url: ") = true →
      TidyError tbl (.urlError (ascii "parse") url err) = .ok (text.drop 7) := by
    intro url err text he hp
    have hlen : 7 ≤ text.length := by
      obtain ⟨rest, rfl⟩ := (HasPrefix_iff _ _).1 hp
      have : (ascii "net/url: ").length = 9 := by decide
      rw [List.length_append, this]; omega
    rw [TidyError_parse, he]
    simp only [Except.bind, hp, if_true, sliceFrom, hlen]
  refine ⟨fun url => ?_, fun url err text he hp => ⟨gen url err text he hp, by decide, ?_⟩⟩
  · rw [gen url _ _ (Error_errorString tbl _) (by decide)]
    decide
  · rintro rest rfl
    have h9 : ascii "net/url: " = ascii "net/url" ++ ascii ": " := by decide
    have h7 : (ascii "net/url").length = 7 := by decide
    rw [h9, List.append_assoc, ← h7, List.drop_left]

/-- The theorem of C6 at a concrete input. -/
theorem TidyError_parse_drops_seven_witness :
    GoError.Error emptyTable (.errorString (ascii "net/url: x net/url: y"))
      = .ok (ascii "net/url: x net/url: y") ∧
    HasPrefix (ascii "net/url: x net/url: y") (ascii "net/url: ") = true ∧
    TidyError emptyTable (.urlError (ascii "parse") (ascii "http://a")
        (.errorString (ascii "net/url: x net/url: y")))
      = .ok (ascii ": x net/url: y") :=
  ⟨Error_errorString _ _, by decide,
    ((TidyError_parse_drops_seven emptyTable).2 (ascii "http://a")
      (.errorString (ascii "net/url: x net/url: y")) (ascii "net/url: x net/url: y")
      (Error_errorString _ _) (by decide)).1.trans (by decide)⟩

/-- C7. For a path error with any operation, any path and a non-nil cause
`c`, `TidyError` returns `c.Error()`, with no operation or path before it:
`"permission denied"` for the path error whose text is
`"open: /tmp/x: permission denied"`, and the cause text unchanged when it
begins with `"zip: "`. -/
theorem TidyError_pathError_cause (tbl : Nat → Bool) :
    (∀ op path c, c ≠ GoError.nil →
      TidyError tbl (.pathError op path c) = GoError.Error tbl c) ∧
    GoError.Error tbl (.pathError (ascii "open:") (ascii "/tmp/x")
        (.errorString (ascii "permission denied")))
      = .ok (ascii "open: /tmp/x: permission denied") ∧
    TidyError tbl (.pathError (ascii "open:") (ascii "/tmp/x")
        (.errorString (ascii "permission denied")))
      = .ok (ascii "permission denied") ∧
    (∀ op path rest, TidyError tbl (.pathError op path (.errorString (ascii "zip: " ++ rest)))
      = .ok (ascii "zip: " ++ rest)) := by
  refine ⟨fun op path c _ => TidyError_pathError tbl op path c, ?_, ?_, ?_⟩
  · rw [GoError.Error, Error_errorString]
    decide
  · rw [TidyError_pathError, Error_errorString]
  · intro op path rest
    rw [TidyError_pathError, Error_errorString]

/-- The theorem of C7 at a concrete input. -/
theorem TidyError_pathError_cause_witness :
    GoError.errorString (ascii "zip: not a valid zip file") ≠ GoError.nil ∧
    TidyError emptyTable (.pathError (ascii "open") (ascii "a.zip")
        (.errorString (ascii "zip: not a valid zip file")))
      = .ok (ascii "zip: not a valid zip file") :=
  ⟨by decide,
    ((TidyError_pathError_cause emptyTable).1 (ascii "open") (ascii "a.zip")
      (.errorString (ascii "zip: not a valid zip file")) (by decide)).trans
      (Error_errorString _ _)⟩

/-- C8. For an error that is neither a path error nor a URL parse error and
whose text is `"zip: "` followed by `rest`, `TidyError` returns `rest`: one
leading `"zip: "` is removed, and a text that holds `"zip: "` elsewhere than
at its start is returned unchanged. -/
theorem TidyError_strips_zip (tbl : Nat → Bool) (e : GoError)
    (hp : isPathErr e = false) (hu : isParseErr e = false) :
    (∀ rest, GoError.Error tbl e = .ok (ascii "zip: " ++ rest) →
      TidyError tbl e = .ok rest) ∧
    (∀ before after, GoError.Error tbl e = .ok (before ++ ascii "zip: " ++ after) →
      HasPrefix (before ++ ascii "zip: " ++ after) (ascii "zip: ") = false →
      TidyError tbl e = .ok (before ++ ascii "zip: " ++ after)) := by
  constructor
  · intro rest he
    rw [TidyError_other tbl e hp hu, he]
    exact tidyText_zip rest
  · intro before after he hz
    refine TidyError_long tbl e _ hp hu he ?_ hz
    have : (ascii "zip: ").length = 5 := by decide
    rw [List.length_append, List.length_append, this]
    omega

/-- The theorem of C8 at a concrete input. -/
theorem TidyError_strips_zip_witness :
    isPathErr (.errorString (ascii "zip: zip: x")) = false ∧
    isParseErr (.errorString (ascii "zip: zip: x")) = false ∧
    GoError.Error emptyTable (.errorString (ascii "zip: " ++ ascii "zip: x"))
      = .ok (ascii "zip: " ++ ascii "zip: x") ∧
    TidyError emptyTable (.errorString (ascii "zip: zip: x")) = .ok (ascii "zip: x") :=
  ⟨rfl, rfl, Error_errorString _ _,
    (TidyError_strips_zip emptyTable (.errorString (ascii "zip: zip: x")) rfl rfl).1
      (ascii "zip: x") (Error_errorString _ _)⟩

/-- A text that holds `"zip: "` after its first byte is returned whole. -/
theorem TidyError_inner_zip_example :
    TidyError emptyTable (.errorString (ascii "a zip: b")) = .ok (ascii "a zip: b") :=
  (TidyError_errorString _ _).trans (tidyText_other _ (by decide) (by decide))

/-- C9. With `QuoteNoun = false` and `BaseError = nil`, `Error()` returns
`"cannot " + Verb + " "`, then `Adjective + " "` if the adjective is not
empty, then `Noun`, then `" " + Suffix` if the suffix is not empty; with both
empty it is exactly `"cannot " + Verb + " " + Noun`. -/
theorem CannotError_Error_plain (tbl : Nat → Bool) (ce : CannotError)
    (hq : ce.QuoteNoun = false) (hb : ce.BaseError = .nil) :
    ce.Error tbl = .ok (ascii "cannot " ++ ce.Verb ++ ascii " "
        ++ (if ce.Adjective ≠ [] then ce.Adjective ++ ascii " " else [])
        ++ ce.Noun
        ++ (if ce.Suffix ≠ [] then ascii " " ++ ce.Suffix else [])) ∧
    (ce.Adjective = [] → ce.Suffix = [] →
      ce.Error tbl = .ok (ascii "cannot " ++ ce.Verb ++ ascii " " ++ ce.Noun)) := by
  have main : ce.Error tbl = .ok (ascii "cannot " ++ ce.Verb ++ ascii " "
        ++ (if ce.Adjective ≠ [] then ce.Adjective ++ ascii " " else [])
        ++ ce.Noun
        ++ (if ce.Suffix ≠ [] then ascii " " ++ ce.Suffix else [])) := by
    rw [CannotError.Error_eq]
    simp only [hq, hb, ne_eq, not_true_eq_false, if_false, Bool.false_eq_true]
    by_cases ha : ce.Adjective = [] <;> by_cases hs : ce.Suffix = [] <;>
      simp [ha, hs]
  refine ⟨main, ?_⟩
  intro ha hs
  rw [main]
  simp [ha, hs]

/-- The theorem of C9 at a concrete input. -/
theorem CannotError_Error_plain_witness :
    (Cannot (ascii "open") [] (ascii "a.txt") false [] .nil).QuoteNoun = false ∧
    (Cannot (ascii "open") [] (ascii "a.txt") false [] .nil).BaseError = .nil ∧
    CannotError.Error emptyTable (Cannot (ascii "open") [] (ascii "a.txt") false [] .nil)
      = .ok (ascii "cannot open a.txt") :=
  ⟨rfl, rfl,
    ((CannotError_Error_plain emptyTable
      (Cannot (ascii "open") [] (ascii "a.txt") false [] .nil) rfl rfl).2 rfl rfl).trans
      (congrArg Except.ok (by decide))⟩

/-- C10. `IsHTTPerror(code)` is false exactly for the codes from 200 to 299,
for every integer, negative and four-digit codes included; 200, 204 and 299
are not errors, 404, 500, 101 and 301 are. -/
theorem IsHTTPerror_false_iff :
    (∀ code : Int, IsHTTPerror code = false ↔ 200 ≤ code ∧ code ≤ 299) ∧
    IsHTTPerror 200 = false ∧ IsHTTPerror 204 = false ∧ IsHTTPerror 299 = false ∧
    IsHTTPerror 404 = true ∧ IsHTTPerror 500 = true ∧ IsHTTPerror 101 = true ∧
    IsHTTPerror 301 = true ∧ IsHTTPerror (-250) = true ∧ IsHTTPerror 2000 = true := by
  refine ⟨?_, by decide, by decide, by decide, by decide, by decide, by decide, by decide,
    by decide, by decide⟩
  intro code
  rw [← tdiv_hundred_eq_two code]
  simp [IsHTTPerror]

/-! ## Auxiliary facts: `HttpError` and the requests -/

/-- Unfolding of `(*HttpError).Error`: it always returns, and the text between
the parentheses is `Text` without one leading `"<code> "`. -/
theorem HttpError.Error_unfold (e : HttpError) :
    e.Error = .ok (ascii "HTTP error " ++ decimal e.Code ++ ascii " ("
      ++ (if HasPrefix e.Text (decimal e.Code ++ ascii " ") = true
          then e.Text.drop (decimal e.Code ++ ascii " ").length else e.Text)
      ++ ascii ")") := by
  unfold HttpError.Error
  by_cases h : HasPrefix e.Text (decimal e.Code ++ ascii " ") = true
  · have hlen : (decimal e.Code ++ ascii " ").length ≤ e.Text.length := by
      obtain ⟨rest, hr⟩ := (HasPrefix_iff _ _).1 h
      have hl := congrArg List.length hr
      rw [List.length_append] at hl
      omega
    simp only [h, if_true, sliceFrom, hlen]
    rfl
  · simp only [h, if_false]
    rfl

/-- The text of an `HttpError` as an `error` value. -/
theorem Error_httpError (tbl : Nat → Bool) (code : Int) (text : GoString) :
    GoError.Error tbl (.httpError code text)
      = HttpError.Error { Code := code, Text := text } := by
  rw [GoError.Error]

/-- A text that begins with `"HTTP error "` or with `"cannot "` is returned
whole by the last statements of `TidyError`. -/
theorem tidyText_of_prefix (pre rest : GoString) (h5 : 5 ≤ pre.length)
    (hz : pre.take 5 ≠ ascii "zip: ") : tidyText (pre ++ rest) = .ok (pre ++ rest) := by
  refine tidyText_other _ (by rw [List.length_append]; omega) ?_
  have ht : (pre ++ rest).take 5 = pre.take 5 := by
    rw [List.take_append_of_le_length h5]
  have hl : (ascii "zip: ").length = 5 := by decide
  cases hc : HasPrefix (pre ++ rest) (ascii "zip: ") with
  | false => rfl
  | true =>
    exfalso
    simp only [HasPrefix, Bool.and_eq_true, decide_eq_true_eq, beq_iff_eq, hl, ht] at hc
    exact hz hc.2

/-- `TidyError` leaves the text of an `HttpError` alone. -/
theorem TidyError_httpError (tbl : Nat → Bool) (code : Int) (text : GoString) :
    TidyError tbl (.httpError code text)
      = HttpError.Error { Code := code, Text := text } := by
  rw [TidyError_other tbl (.httpError code text) rfl rfl, Error_httpError,
    HttpError.Error_unfold]
  simp only [Except.bind, List.append_assoc]
  exact tidyText_of_prefix (ascii "HTTP error ") _ (by decide) (by decide)

/-- The text of a `CannotError`, when `Error()` returns, begins with
`"cannot "`. -/
theorem CannotError.Error_prefix (tbl : Nat → Bool) (ce : CannotError) (text : GoString)
    (h : ce.Error tbl = .ok text) : ∃ rest, text = ascii "cannot " ++ rest := by
  rw [CannotError.Error_eq] at h
  simp only [] at h
  split_ifs at h <;>
    first
      | (cases ht : TidyError tbl ce.BaseError with
          | error p => rw [ht] at h; exact Except.noConfusion h
          | ok tidy =>
            rw [ht] at h
            simp only [Except.map, Except.ok.injEq, List.append_assoc] at h
            exact ⟨_, h.symm⟩)
      | (simp only [Except.ok.injEq, List.append_assoc] at h
         exact ⟨_, h.symm⟩)

/-- `TidyError` leaves a `CannotError` alone: it returns the text of
`Error()`, or panics as `Error()` does. -/
theorem TidyError_cannotError (tbl : Nat → Bool) (ce : CannotError) :
    TidyError tbl ce.toError = ce.Error tbl := by
  rw [TidyError_other tbl ce.toError rfl rfl]
  show (CannotError.Error tbl ce).bind tidyText = _
  cases h : CannotError.Error tbl ce with
  | error p => rfl
  | ok text =>
    obtain ⟨rest, rfl⟩ := CannotError.Error_prefix tbl ce text h
    exact tidyText_of_prefix (ascii "cannot ") rest (by decide) (by decide)

section RequestFacts

variable {Req Cookie : Type}

/-- A loop of uses of a request that is not nil never panics. -/
theorem foldlM_withRequest {α : Type} (g : Req → α → Req) (xs : List α) (r : Req) :
    xs.foldlM (fun req x => withRequest req (fun r => g r x)) (some r)
      = Except.ok (some (xs.foldl g r)) := by
  induction xs generalizing r with
  | nil => rfl
  | cons x xs ih =>
    rw [List.foldlM_cons]
    show (Except.ok (some (g r x))).bind _ = _
    exact ih (g r x)

/-- When `http.NewRequest` returns an error, `newRequest` returns nil and
the `CannotError` that wraps it. -/
theorem newRequest_fail (lib : Http Req Cookie) (method url : GoString) (headers : Header)
    (cookies : List Cookie) (h : (lib.NewRequest method url).2 ≠ .nil) :
    newRequest lib method url headers cookies
      = .ok (none, (Cannot (ascii "parse") (ascii "URL") url true []
          (lib.NewRequest method url).2).toError) := by
  unfold newRequest
  simp only [h, ne_eq, not_false_eq_true, if_true]

/-- When `http.NewRequest` returns a request and no error, `newRequest`
returns a request and no error. -/
theorem newRequest_ok (lib : Http Req Cookie) (method url : GoString) (headers : Header)
    (cookies : List Cookie) (r : Req) (h : lib.NewRequest method url = (some r, .nil)) :
    ∃ r', newRequest lib method url headers cookies = .ok (some r', .nil) := by
  unfold newRequest
  rw [h]
  simp only [ne_eq, not_true_eq_false, if_false]
  have hh : ∀ (hs : Header) (r : Req), ∃ r',
      hs.foldlM (fun req kv => kv.2.foldlM
          (fun req v => withRequest req (fun r => lib.HeaderAdd r kv.1 v)) req) (some r)
        = Except.ok (some r') := by
    intro hs
    induction hs with
    | nil => intro r; exact ⟨r, rfl⟩
    | cons kv hs ih =>
      intro r
      rw [List.foldlM_cons, foldlM_withRequest (fun r v => lib.HeaderAdd r kv.1 v)]
      exact ih _
  obtain ⟨r1, h1⟩ := hh headers r
  rw [h1]
  show ∃ r', (do
      let req ← cookies.foldlM (fun req c => withRequest req (fun r => lib.AddCookie r c)) (some r1)
      pure (req, GoError.nil)) = _
  rw [foldlM_withRequest lib.AddCookie]
  exact ⟨_, rfl⟩

/-- The result of `newRequest` has one of three shapes: the wrapped error of
`http.NewRequest`; a request and no error; or, when the library returns
neither a request nor an error, nothing at all or a panic. -/
theorem newRequest_cases (lib : Http Req Cookie) (method url : GoString) (headers : Header)
    (cookies : List Cookie) (hNew : (lib.NewRequest method url).2 = .nil →
      (lib.NewRequest method url).1 ≠ none) :
    ((lib.NewRequest method url).2 ≠ .nil ∧
      newRequest lib method url headers cookies
        = .ok (none, (Cannot (ascii "parse") (ascii "URL") url true []
            (lib.NewRequest method url).2).toError)) ∨
    ((lib.NewRequest method url).2 = .nil ∧
      ∃ r', newRequest lib method url headers cookies = .ok (some r', .nil)) := by
  by_cases h : (lib.NewRequest method url).2 = .nil
  · right
    refine ⟨h, ?_⟩
    have h1 := hNew h
    cases hr : (lib.NewRequest method url).1 with
    | none => exact absurd hr h1
    | some r =>
      exact newRequest_ok lib method url headers cookies r (Prod.ext hr h)
  · exact Or.inl ⟨h, newRequest_fail lib method url headers cookies h⟩

end RequestFacts

section RequestPaths

variable {Req Cookie : Type}

/-- The noun of the errors of `GetViaHTTP` and `MetaViaHTTP`: the label, or
the URL when the label is empty. -/
theorem label_cases (url what : GoString) :
    (if what = [] then (url, true) else (what, false))
      = (if what = [] then url else what, decide (what = [])) := by
  by_cases h : what = [] <;> simp [h]

/-- `GetViaHTTP` returns the error of `newRequest` as it is. -/
theorem GetViaHTTP_newRequest_error (lib : Http Req Cookie) (url what : GoString)
    (headers : Header) (cookies : List Cookie) (req : Option Req) (err : GoError)
    (h : newRequest lib (ascii "GET") url headers cookies = .ok (req, err))
    (he : err ≠ .nil) :
    GetViaHTTP lib url what headers cookies = .ok (none, err) := by
  unfold GetViaHTTP
  rw [h]
  simp only [label_cases, bind, Except.bind, he, ne_eq, not_false_eq_true, if_true]
  rfl

/-- `GetViaHTTP` after a transport error: the `fetch` error. -/
theorem GetViaHTTP_transport_error (lib : Http Req Cookie) (url what : GoString)
    (headers : Header) (cookies : List Cookie) (r : Req) (resp : Option Response)
    (err : GoError)
    (h : newRequest lib (ascii "GET") url headers cookies = .ok (some r, .nil))
    (hd : lib.Do r = (resp, err)) (he : err ≠ .nil) :
    GetViaHTTP lib url what headers cookies
      = .ok (none, (Cannot (ascii "fetch") [] (if what = [] then url else what)
          (decide (what = [])) [] err).toError) := by
  unfold GetViaHTTP
  rw [h]
  simp only [label_cases, bind, Except.bind, ne_eq, not_true_eq_false, if_false, doRequest, hd,
    he, pure, Except.pure, not_false_eq_true, if_true]

/-- `GetViaHTTP` after a response whose status is an error: the `fetch`
error with the `HttpError` of the response. -/
theorem GetViaHTTP_status_error (lib : Http Req Cookie) (url what : GoString)
    (headers : Header) (cookies : List Cookie) (r : Req) (resp : Response)
    (h : newRequest lib (ascii "GET") url headers cookies = .ok (some r, .nil))
    (hd : lib.Do r = (some resp, .nil)) (hs : IsHTTPerror resp.StatusCode = true) :
    GetViaHTTP lib url what headers cookies
      = .ok (none, (Cannot (ascii "fetch") [] (if what = [] then url else what)
          (decide (what = [])) [] (HTTPerror resp)).toError) := by
  have hne : HTTPerror resp ≠ .nil := by
    intro hc; exact GoError.noConfusion hc
  unfold GetViaHTTP
  rw [h]
  simp only [label_cases, bind, Except.bind, ne_eq, not_true_eq_false, if_false, doRequest, hd,
    deref, hs, if_true, pure, Except.pure, hne, not_false_eq_true]

/-- `GetViaHTTP` after a response whose status is not an error and whose
body cannot be read: the `read` error. -/
theorem GetViaHTTP_read_error (lib : Http Req Cookie) (url what : GoString)
    (headers : Header) (cookies : List Cookie) (r : Req) (resp : Response)
    (h : newRequest lib (ascii "GET") url headers cookies = .ok (some r, .nil))
    (hd : lib.Do r = (some resp, .nil)) (hs : IsHTTPerror resp.StatusCode = false)
    (hr : resp.ReadAll.2 ≠ .nil) :
    GetViaHTTP lib url what headers cookies
      = .ok (none, (Cannot (ascii "read") [] (if what = [] then url else what)
          (decide (what = [])) (ascii " from network") resp.ReadAll.2).toError) := by
  unfold GetViaHTTP
  rw [h]
  simp only [label_cases, bind, Except.bind, ne_eq, not_true_eq_false, if_false, doRequest, hd,
    deref, hs, Bool.false_eq_true, pure, Except.pure, hr, not_false_eq_true, if_true]

/-- `GetViaHTTP` after a response whose status is not an error and whose
body is read to its end: the body. -/
theorem GetViaHTTP_body (lib : Http Req Cookie) (url what : GoString)
    (headers : Header) (cookies : List Cookie) (r : Req) (resp : Response)
    (h : newRequest lib (ascii "GET") url headers cookies = .ok (some r, .nil))
    (hd : lib.Do r = (some resp, .nil)) (hs : IsHTTPerror resp.StatusCode = false)
    (hr : resp.ReadAll.2 = .nil) :
    GetViaHTTP lib url what headers cookies = .ok (some resp.ReadAll.1, .nil) := by
  unfold GetViaHTTP
  rw [h]
  simp only [label_cases, bind, Except.bind, ne_eq, not_true_eq_false, if_false, doRequest, hd,
    deref, hs, Bool.false_eq_true, pure, Except.pure, hr, if_true]

/-- `MetaViaHTTP` returns the error of `newRequest` as it is. -/
theorem MetaViaHTTP_newRequest_error (lib : Http Req Cookie) (url what : GoString)
    (headers : Header) (cookies : List Cookie) (req : Option Req) (err : GoError)
    (h : newRequest lib (ascii "HEAD") url headers cookies = .ok (req, err))
    (he : err ≠ .nil) :
    MetaViaHTTP lib url what headers cookies = .ok (none, err) := by
  unfold MetaViaHTTP
  rw [h]
  simp only [label_cases, bind, Except.bind, he, ne_eq, not_false_eq_true, if_true]
  rfl

/-- `MetaViaHTTP` when `Do` returns no response: the call
`response.Body.Close()` panics, whatever the error returned with it. -/
theorem MetaViaHTTP_no_response (lib : Http Req Cookie) (url what : GoString)
    (headers : Header) (cookies : List Cookie) (r : Req) (err : GoError)
    (h : newRequest lib (ascii "HEAD") url headers cookies = .ok (some r, .nil))
    (hd : lib.Do r = (none, err)) :
    MetaViaHTTP lib url what headers cookies = .error .nilDereference := by
  unfold MetaViaHTTP
  rw [h]
  simp only [label_cases, bind, Except.bind, ne_eq, not_true_eq_false, if_false, doRequest, hd,
    deref]

/-- `MetaViaHTTP` after a response whose status is an error: the
`get HEADers for` error with the `HttpError` of the response. -/
theorem MetaViaHTTP_status_error (lib : Http Req Cookie) (url what : GoString)
    (headers : Header) (cookies : List Cookie) (r : Req) (resp : Response)
    (h : newRequest lib (ascii "HEAD") url headers cookies = .ok (some r, .nil))
    (hd : lib.Do r = (some resp, .nil)) (hs : IsHTTPerror resp.StatusCode = true) :
    MetaViaHTTP lib url what headers cookies
      = .ok (none, (Cannot (ascii "get HEADers for") [] (if what = [] then url else what)
          (decide (what = [])) [] (HTTPerror resp)).toError) := by
  have hne : HTTPerror resp ≠ .nil := by
    intro hc; exact GoError.noConfusion hc
  unfold MetaViaHTTP
  rw [h]
  simp only [label_cases, bind, Except.bind, ne_eq, not_true_eq_false, if_false, doRequest, hd,
    deref, hs, and_self, if_true, pure, Except.pure, hne, not_false_eq_true]

/-- `MetaViaHTTP` when `Do` returns a response together with an error: the
`get HEADers for` error with that error. -/
theorem MetaViaHTTP_transport_error (lib : Http Req Cookie) (url what : GoString)
    (headers : Header) (cookies : List Cookie) (r : Req) (resp : Response) (err : GoError)
    (h : newRequest lib (ascii "HEAD") url headers cookies = .ok (some r, .nil))
    (hd : lib.Do r = (some resp, err)) (he : err ≠ .nil) :
    MetaViaHTTP lib url what headers cookies
      = .ok (none, (Cannot (ascii "get HEADers for") [] (if what = [] then url else what)
          (decide (what = [])) [] err).toError) := by
  unfold MetaViaHTTP
  rw [h]
  simp only [label_cases, bind, Except.bind, ne_eq, not_true_eq_false, if_false, doRequest, hd,
    deref, he, false_and, pure, Except.pure, not_false_eq_true, if_true]

/-- `MetaViaHTTP` after a response whose status is not an error: the
response. -/
theorem MetaViaHTTP_response (lib : Http Req Cookie) (url what : GoString)
    (headers : Header) (cookies : List Cookie) (r : Req) (resp : Response)
    (h : newRequest lib (ascii "HEAD") url headers cookies = .ok (some r, .nil))
    (hd : lib.Do r = (some resp, .nil)) (hs : IsHTTPerror resp.StatusCode = false) :
    MetaViaHTTP lib url what headers cookies = .ok (some resp, .nil) := by
  unfold MetaViaHTTP
  rw [h]
  simp only [label_cases, bind, Except.bind, ne_eq, not_true_eq_false, if_false, doRequest, hd,
    deref, hs, Bool.false_eq_true, and_false, pure, Except.pure]

end RequestPaths

/-- `Error()` of an `HttpError` whose text begins with its code. -/
theorem HttpError.Error_of_prefix (c : Int) (rest : GoString) :
    HttpError.Error { Code := c, Text := decimal c ++ ascii " " ++ rest }
      = .ok (ascii "HTTP error " ++ decimal c ++ ascii " (" ++ rest ++ ascii ")") := by
  rw [HttpError.Error_unfold]
  simp only [HasPrefix_append, if_true, List.drop_left]

/-- `IsHTTPerror` is false exactly from 200 to 299. -/
theorem IsHTTPerror_eq_false (code : Int) :
    IsHTTPerror code = false ↔ 200 ≤ code ∧ code ≤ 299 := by
  rw [← tdiv_hundred_eq_two code]
  simp [IsHTTPerror]

section RequestCases

variable {Req Cookie : Type}

/-- Every run of `GetViaHTTP` against a library that keeps the contracts of
`http.NewRequest` and of `Do` (a nil error comes with a non-nil result) ends
in one of five ways. -/
theorem GetViaHTTP_cases (lib : Http Req Cookie) (url what : GoString) (headers : Header)
    (cookies : List Cookie)
    (hNew : (lib.NewRequest (ascii "GET") url).2 = .nil →
      (lib.NewRequest (ascii "GET") url).1 ≠ none)
    (hDo : ∀ r, (lib.Do r).2 = .nil → (lib.Do r).1 ≠ none) :
    ((lib.NewRequest (ascii "GET") url).2 ≠ .nil ∧
      GetViaHTTP lib url what headers cookies
        = .ok (none, (Cannot (ascii "parse") (ascii "URL") url true []
            (lib.NewRequest (ascii "GET") url).2).toError)) ∨
    (∃ r, (lib.Do r).2 ≠ .nil ∧
      GetViaHTTP lib url what headers cookies
        = .ok (none, (Cannot (ascii "fetch") [] (if what = [] then url else what)
            (decide (what = [])) [] (lib.Do r).2).toError)) ∨
    (∃ r resp, lib.Do r = (some resp, .nil) ∧ IsHTTPerror resp.StatusCode = true ∧
      GetViaHTTP lib url what headers cookies
        = .ok (none, (Cannot (ascii "fetch") [] (if what = [] then url else what)
            (decide (what = [])) [] (HTTPerror resp)).toError)) ∨
    (∃ r resp, lib.Do r = (some resp, .nil) ∧ IsHTTPerror resp.StatusCode = false ∧
      resp.ReadAll.2 ≠ .nil ∧
      GetViaHTTP lib url what headers cookies
        = .ok (none, (Cannot (ascii "read") [] (if what = [] then url else what)
            (decide (what = [])) (ascii " from network") resp.ReadAll.2).toError)) ∨
    (∃ r resp, lib.Do r = (some resp, .nil) ∧ IsHTTPerror resp.StatusCode = false ∧
      resp.ReadAll.2 = .nil ∧
      GetViaHTTP lib url what headers cookies = .ok (some resp.ReadAll.1, .nil)) := by
  rcases newRequest_cases lib (ascii "GET") url headers cookies hNew with ⟨he, hr⟩ | ⟨-, r, hr⟩
  · left
    exact ⟨he, GetViaHTTP_newRequest_error lib url what headers cookies _ _ hr
      (fun hc => GoError.noConfusion hc)⟩
  · right
    by_cases hd : (lib.Do r).2 = .nil
    · right
      cases hresp : (lib.Do r).1 with
      | none => exact absurd hresp (hDo r hd)
      | some resp =>
        have hdo : lib.Do r = (some resp, .nil) := Prod.ext hresp hd
        cases hs : IsHTTPerror resp.StatusCode with
        | true =>
          exact Or.inl ⟨r, resp, hdo, hs,
            GetViaHTTP_status_error lib url what headers cookies r resp hr hdo hs⟩
        | false =>
          right
          by_cases hread : resp.ReadAll.2 = .nil
          · exact Or.inr ⟨r, resp, hdo, hs, hread,
              GetViaHTTP_body lib url what headers cookies r resp hr hdo hs hread⟩
          · exact Or.inl ⟨r, resp, hdo, hs, hread,
              GetViaHTTP_read_error lib url what headers cookies r resp hr hdo hs hread⟩
    · left
      exact ⟨r, hd, GetViaHTTP_transport_error lib url what headers cookies r _ _ hr
        (Prod.ext rfl rfl) hd⟩

end RequestCases

/-- The message of a `CannotError` without adjective and suffix whose cause
is an `HttpError` with the status line `decimal(c) + " " + s`. -/
theorem CannotError.Error_http_cause (tbl : Nat → Bool) (verb noun : GoString) (q : Bool)
    (c : Int) (s : GoString) :
    CannotError.Error tbl (Cannot verb [] noun q []
        (.httpError c (decimal c ++ ascii " " ++ s)))
      = .ok (ascii "cannot " ++ verb ++ ascii " " ++ (if q then Quote tbl noun else noun)
          ++ ascii ": " ++ (ascii "HTTP error " ++ decimal c ++ ascii " (" ++ s ++ ascii ")")) := by
  rw [CannotError.Error_eq]
  have hne : GoError.httpError c (decimal c ++ ascii " " ++ s) ≠ .nil :=
    fun hc => GoError.noConfusion hc
  simp only [Cannot, ne_eq, not_true_eq_false, if_false, hne, not_false_eq_true, if_true,
    TidyError_httpError, HttpError.Error_of_prefix, Except.map]
  cases q <;> rfl

/-- `Error()` of a `CannotError` is its narrative, followed by `": "` and the
tidied cause when there is a cause. -/
theorem CannotError.Error_eq_narrative (tbl : Nat → Bool) (ce : CannotError) :
    ce.Error tbl =
      if ce.BaseError ≠ .nil then
        (TidyError tbl ce.BaseError).map (fun tidy => ce.narrative tbl ++ ascii ": " ++ tidy)
      else .ok (ce.narrative tbl) := by
  rw [CannotError.Error_eq]
  have hn : (if ce.Suffix ≠ [] then
        (if ce.QuoteNoun = true then
            (if ce.Adjective ≠ [] then
              ascii "cannot " ++ ce.Verb ++ ascii " " ++ (ce.Adjective ++ ascii " ")
            else ascii "cannot " ++ ce.Verb ++ ascii " ") ++ Quote tbl ce.Noun
          else
            (if ce.Adjective ≠ [] then
              ascii "cannot " ++ ce.Verb ++ ascii " " ++ (ce.Adjective ++ ascii " ")
            else ascii "cannot " ++ ce.Verb ++ ascii " ") ++ ce.Noun) ++ (ascii " " ++ ce.Suffix)
      else
        (if ce.QuoteNoun = true then
            (if ce.Adjective ≠ [] then
              ascii "cannot " ++ ce.Verb ++ ascii " " ++ (ce.Adjective ++ ascii " ")
            else ascii "cannot " ++ ce.Verb ++ ascii " ") ++ Quote tbl ce.Noun
          else
            (if ce.Adjective ≠ [] then
              ascii "cannot " ++ ce.Verb ++ ascii " " ++ (ce.Adjective ++ ascii " ")
            else ascii "cannot " ++ ce.Verb ++ ascii " ") ++ ce.Noun))
      = ce.narrative tbl := by
    unfold CannotError.narrative
    by_cases ha : ce.Adjective = [] <;> by_cases hs : ce.Suffix = [] <;>
      cases hq : ce.QuoteNoun <;> simp [ha, hs]
  exact congrArg (fun b => if ce.BaseError ≠ .nil then
      (TidyError tbl ce.BaseError).map (fun tidy => b ++ ascii ": " ++ tidy) else .ok b) hn

/-- The message of a `CannotError` whose cause is tidied to `tidy`. -/
theorem CannotError.Error_of_tidy (tbl : Nat → Bool) (ce : CannotError) (tidy : GoString)
    (hb : ce.BaseError ≠ .nil) (ht : TidyError tbl ce.BaseError = .ok tidy) :
    ce.Error tbl = .ok (ce.narrative tbl ++ ascii ": " ++ tidy) := by
  rw [CannotError.Error_eq_narrative, if_pos hb, ht]
  rfl

/-! ## The claims on `HttpError` and on the requests -/

/-- C11. For every `HttpError` with code `c` and text `t`, `Error()` returns
`"HTTP error " + decimal(c) + " (" + t' + ")"`, where `t'` is `t` without one
leading `decimal(c) + " "` when `t` begins with it and `t' = t` otherwise;
`HttpError{404, "404 Not Found"}` renders as `"HTTP error 404 (Not Found)"`. -/
theorem HttpError_Error_renders :
    (∀ (c : Int) (rest : GoString),
      HttpError.Error { Code := c, Text := decimal c ++ ascii " " ++ rest }
        = .ok (ascii "HTTP error " ++ decimal c ++ ascii " (" ++ rest ++ ascii ")")) ∧
    (∀ (c : Int) (t : GoString), HasPrefix t (decimal c ++ ascii " ") = false →
      HttpError.Error { Code := c, Text := t }
        = .ok (ascii "HTTP error " ++ decimal c ++ ascii " (" ++ t ++ ascii ")")) ∧
    HttpError.Error { Code := 404, Text := ascii "404 Not Found" }
      = .ok (ascii "HTTP error 404 (Not Found)") := by
  refine ⟨HttpError.Error_of_prefix, ?_, ?_⟩
  · intro c t h
    rw [HttpError.Error_unfold]
    simp only [h, Bool.false_eq_true, if_false]
  · exact (HttpError.Error_of_prefix 404 (ascii "Not Found")).trans
      (congrArg Except.ok (by decide))

/-- The theorem of C11 at a text without the code: nothing is removed. -/
theorem HttpError_Error_renders_witness :
    HasPrefix (ascii "Service Unavailable") (decimal 503 ++ ascii " ") = false ∧
    HttpError.Error { Code := 503, Text := ascii "Service Unavailable" }
      = .ok (ascii "HTTP error 503 (Service Unavailable)") :=
  ⟨by decide,
    (HttpError_Error_renders.2.1 503 (ascii "Service Unavailable") (by decide)).trans
      (congrArg Except.ok (by decide))⟩

/-- C12 (counterexample). For `HttpError{404, "404 404 Not Found"}` the
message is `"HTTP error 404 (404 Not Found)"`: the text between the
parentheses begins with `"404 "`. -/
theorem HttpError_Error_keeps_second_code :
    HttpError.Error { Code := 404, Text := ascii "404 404 Not Found" }
      = .ok (ascii "HTTP error " ++ decimal 404 ++ ascii " (" ++ ascii "404 Not Found"
          ++ ascii ")") ∧
    HasPrefix (ascii "404 Not Found") (decimal 404 ++ ascii " ") = true := by
  refine ⟨?_, by decide⟩
  rw [HttpError.Error_unfold]
  decide

/-- C12 (amended). For every `HttpError` with code `c` and text `t`, the text
between the parentheses of `Error()` is `t` without one leading
`decimal(c) + " "`, and `t` itself when `t` does not begin with it; it begins
with `decimal(c) + " "` exactly when `t` begins with that prefix twice. -/
theorem HttpError_Error_strips_once (c : Int) (t : GoString) :
    ∃ inner,
      HttpError.Error { Code := c, Text := t }
        = .ok (ascii "HTTP error " ++ decimal c ++ ascii " (" ++ inner ++ ascii ")") ∧
      inner = (if HasPrefix t (decimal c ++ ascii " ") = true
        then t.drop (decimal c ++ ascii " ").length else t) ∧
      (∀ rest, t = decimal c ++ ascii " " ++ rest → inner = rest) ∧
      (HasPrefix t (decimal c ++ ascii " ") = false → inner = t) ∧
      (HasPrefix inner (decimal c ++ ascii " ") = true ↔
        HasPrefix t ((decimal c ++ ascii " ") ++ (decimal c ++ ascii " ")) = true) := by
  refine ⟨_, HttpError.Error_unfold _, rfl, ?_, ?_, ?_⟩
  · rintro rest rfl
    simp only [HasPrefix_append, if_true, List.drop_left]
  · intro h
    simp only [h, Bool.false_eq_true, if_false]
  · by_cases h : HasPrefix t (decimal c ++ ascii " ") = true
    · obtain ⟨rest, rfl⟩ := (HasPrefix_iff _ _).1 h
      simp only [HasPrefix_append, if_true, List.drop_left]
      rw [HasPrefix_iff, HasPrefix_iff]
      constructor
      · rintro ⟨r2, rfl⟩
        exact ⟨r2, by simp only [List.append_assoc]⟩
      · rintro ⟨r2, h2⟩
        refine ⟨r2, ?_⟩
        rw [List.append_assoc (decimal c ++ ascii " ")] at h2
        exact List.append_cancel_left h2
    · simp only [h, if_false]
      constructor
      · intro h'; exact absurd h' h
      · intro h'
        exfalso
        apply h
        obtain ⟨r2, rfl⟩ := (HasPrefix_iff _ _).1 h'
        rw [List.append_assoc (decimal c ++ ascii " ")]
        exact HasPrefix_append _ _

/-- The theorem of C12 (amended) at a text that carries the code once and at
a text that does not carry it. -/
theorem HttpError_Error_strips_once_witness :
    (ascii "404 Not Found" = decimal 404 ++ ascii " " ++ ascii "Not Found" ∧
      ∃ inner,
        HttpError.Error { Code := 404, Text := ascii "404 Not Found" }
          = .ok (ascii "HTTP error " ++ decimal 404 ++ ascii " (" ++ inner ++ ascii ")") ∧
        inner = ascii "Not Found") ∧
    (HasPrefix (ascii "Not Found") (decimal 404 ++ ascii " ") = false ∧
      ∃ inner,
        HttpError.Error { Code := 404, Text := ascii "Not Found" }
          = .ok (ascii "HTTP error " ++ decimal 404 ++ ascii " (" ++ inner ++ ascii ")") ∧
        inner = ascii "Not Found") :=
  ⟨⟨by decide,
      (HttpError_Error_strips_once 404 (ascii "404 Not Found")).elim
        (fun inner h => ⟨inner, h.1, h.2.2.1 (ascii "Not Found") (by decide)⟩)⟩,
    ⟨by decide,
      (HttpError_Error_strips_once 404 (ascii "Not Found")).elim
        (fun inner h => ⟨inner, h.1, h.2.2.2.1 (by decide)⟩)⟩⟩

/-- C13 (failing input). For the label `index`, a response `200 OK` and a
read that fails with `unexpected EOF`, `GetViaHTTP` returns the `CannotError`
with `Verb = "read"` whose `Suffix` is `" from network"`, with a leading
space, so that the message has two spaces after the noun. -/
theorem GetViaHTTP_read_error_suffix (tbl : Nat → Bool) :
    GetViaHTTP
        (fixedHttp (some (), .nil)
          (some { StatusCode := 200, Status := ascii "200 OK",
                  ReadAll := (ascii "par", .errorString (ascii "unexpected EOF")) }, .nil))
        (ascii "http://a/") (ascii "index") [] []
      = .ok (none, (Cannot (ascii "read") [] (ascii "index") false (ascii " from network")
          (.errorString (ascii "unexpected EOF"))).toError) ∧
    ascii " from network" ≠ ascii "from network" ∧
    CannotError.Error tbl (Cannot (ascii "read") [] (ascii "index") false
        (ascii " from network") (.errorString (ascii "unexpected EOF")))
      = .ok (ascii "cannot read index  from network: unexpected EOF") ∧
    CannotError.Error tbl (Cannot (ascii "read") [] (ascii "index") false
        (ascii " from network") (.errorString (ascii "unexpected EOF")))
      ≠ .ok (ascii "cannot read index from network: unexpected EOF") := by
  have hm : CannotError.Error tbl (Cannot (ascii "read") [] (ascii "index") false
        (ascii " from network") (.errorString (ascii "unexpected EOF")))
      = .ok (ascii "cannot read index  from network: unexpected EOF") := by
    rw [CannotError.Error_eq]
    have ht : TidyError tbl (.errorString (ascii "unexpected EOF"))
        = .ok (ascii "unexpected EOF") :=
      (TidyError_errorString tbl _).trans (tidyText_other _ (by decide) (by decide))
    simp only [Cannot, ht, Bool.false_eq_true, if_false, Except.map]
    decide
  refine ⟨?_, by decide, hm, ?_⟩
  · exact GetViaHTTP_read_error
      (fixedHttp (some (), .nil)
        (some { StatusCode := 200, Status := ascii "200 OK",
                ReadAll := (ascii "par", .errorString (ascii "unexpected EOF")) }, .nil))
      (ascii "http://a/") (ascii "index") [] [] ()
      { StatusCode := 200, Status := ascii "200 OK",
        ReadAll := (ascii "par", .errorString (ascii "unexpected EOF")) }
      rfl rfl (by decide) (by decide)
  · rw [hm]; decide

/-- C14 (failing input). When the request is built and `Do` returns no
response and a transport error, `MetaViaHTTP` does not return an error: the
call `response.Body.Close()` dereferences the nil response and panics. -/
theorem MetaViaHTTP_panics_without_response (url what : GoString) (err : GoError) :
    MetaViaHTTP (fixedHttp (some (), .nil) (none, err)) url what [] []
      = .error .nilDereference ∧
    MetaViaHTTP
        (fixedHttp (some (), .nil)
          (none, .urlError (ascii "Head") (ascii "http://a/")
            (.errorString (ascii "dial tcp 127.0.0.1:80: connect: connection refused"))))
        (ascii "http://a/") (ascii "index") [] []
      = .error .nilDereference :=
  ⟨MetaViaHTTP_no_response _ url what [] [] () err rfl rfl,
    MetaViaHTTP_no_response _ _ _ [] [] () _ rfl rfl⟩

/-- C15. When the request is built, a transport error or a response whose
status is an error makes `GetViaHTTP` return nil and
`CannotError{"fetch", "", n, q, "", cause}`, where `(n, q)` is `(url, true)`
for an empty label and `(label, false)` otherwise, and `cause` is the
transport error or the `HttpError` of the response. With an empty label, the
status code 500 and the status line `"500 " + s`, the message is
`"cannot fetch "`, the URL as `%q` writes it, then
`": HTTP error 500 (" + s + ")"`; the URL stands unchanged between double
quotes when its bytes are printable ASCII other than `"` and `\`. -/
theorem GetViaHTTP_fetch_error {Req Cookie : Type} (tbl : Nat → Bool)
    (lib : Http Req Cookie) (url what : GoString) (headers : Header) (cookies : List Cookie)
    (r : Req) (hreq : newRequest lib (ascii "GET") url headers cookies = .ok (some r, .nil)) :
    (∀ resp err, lib.Do r = (resp, err) → err ≠ .nil →
      GetViaHTTP lib url what headers cookies
        = .ok (none, (Cannot (ascii "fetch") [] (if what = [] then url else what)
            (decide (what = [])) [] err).toError)) ∧
    (∀ resp, lib.Do r = (some resp, .nil) → ¬ (200 ≤ resp.StatusCode ∧ resp.StatusCode ≤ 299) →
      GetViaHTTP lib url what headers cookies
        = .ok (none, (Cannot (ascii "fetch") [] (if what = [] then url else what)
            (decide (what = [])) [] (HTTPerror resp)).toError)) ∧
    (∀ resp s, what = [] → lib.Do r = (some resp, .nil) → resp.StatusCode = 500 →
      resp.Status = ascii "500 " ++ s →
      ∃ ce : CannotError, GetViaHTTP lib url what headers cookies = .ok (none, ce.toError) ∧
        ce.Error tbl = .ok (ascii "cannot fetch " ++ Quote tbl url
          ++ ascii ": HTTP error 500 (" ++ s ++ ascii ")") ∧
        ((∀ b ∈ url, plainByte b = true) →
          ce.Error tbl = .ok (ascii "cannot fetch " ++ ([0x22] ++ url ++ [0x22])
            ++ ascii ": HTTP error 500 (" ++ s ++ ascii ")"))) := by
  refine ⟨fun resp err hd he =>
      GetViaHTTP_transport_error lib url what headers cookies r resp err hreq hd he,
    fun resp hd hs => ?_, fun resp s hw hd hc hst => ?_⟩
  · refine GetViaHTTP_status_error lib url what headers cookies r resp hreq hd ?_
    cases h : IsHTTPerror resp.StatusCode with
    | true => rfl
    | false => exact absurd ((IsHTTPerror_eq_false _).1 h) hs
  · have hs : IsHTTPerror resp.StatusCode = true := by rw [hc]; decide
    have hmsg : CannotError.Error tbl (Cannot (ascii "fetch") [] url true [] (HTTPerror resp))
        = .ok (ascii "cannot fetch " ++ Quote tbl url
          ++ ascii ": HTTP error 500 (" ++ s ++ ascii ")") := by
      have h500 : decimal 500 = ascii "500" := by decide
      have hh : HTTPerror resp = .httpError 500 (decimal 500 ++ ascii " " ++ s) := by
        rw [HTTPerror, HttpError.toError, hc, hst, h500]
        rfl
      rw [hh, CannotError.Error_http_cause, h500]
      simp only [if_true, List.append_assoc]
      rfl
    refine ⟨Cannot (ascii "fetch") [] url true [] (HTTPerror resp), ?_, hmsg, fun hp => ?_⟩
    · have := GetViaHTTP_status_error lib url what headers cookies r resp hreq hd hs
      rw [this, hw]
      rfl
    · rw [hmsg, Quote_plain tbl url hp]

/-- The theorem of C15 for a server that answers `500 Internal Server Error`
to a request without label. -/
theorem GetViaHTTP_fetch_error_witness :
    newRequest
        (fixedHttp (some (), .nil)
          (some { StatusCode := 500, Status := ascii "500 Internal Server Error",
                  ReadAll := ([], .nil) }, .nil))
        (ascii "GET") (ascii "http://a/") [] []
      = .ok (some (), .nil) ∧
    ∃ ce : CannotError,
      GetViaHTTP
          (fixedHttp (some (), .nil)
            (some { StatusCode := 500, Status := ascii "500 Internal Server Error",
                    ReadAll := ([], .nil) }, .nil))
          (ascii "http://a/") [] [] []
        = .ok (none, ce.toError) ∧
      ce.Error emptyTable = .ok (ascii "cannot fetch " ++ Quote emptyTable (ascii "http://a/")
        ++ ascii ": HTTP error 500 (" ++ ascii "Internal Server Error" ++ ascii ")") ∧
      ((∀ b ∈ ascii "http://a/", plainByte b = true) →
        ce.Error emptyTable = .ok (ascii "cannot fetch " ++ ([0x22] ++ ascii "http://a/" ++ [0x22])
          ++ ascii ": HTTP error 500 (" ++ ascii "Internal Server Error" ++ ascii ")")) :=
  ⟨rfl,
    (GetViaHTTP_fetch_error emptyTable
      (fixedHttp (some (), .nil)
        (some { StatusCode := 500, Status := ascii "500 Internal Server Error",
                ReadAll := ([], .nil) }, .nil))
      (ascii "http://a/") [] [] [] () rfl).2.2
      { StatusCode := 500, Status := ascii "500 Internal Server Error", ReadAll := ([], .nil) }
      (ascii "Internal Server Error") rfl rfl rfl rfl⟩

/-- C16 (counterexample). For the URL `http://a` + line feed + `b`, which
`http.NewRequest` rejects with the parse error `net/url: invalid control
character in URL`, the message of the error returned by `MetaViaHTTP` and by
`GetViaHTTP` begins with `cannot parse URL "http://a\nb"`; it does not begin
with `cannot parse "`, nor with `cannot parse `, a double quote, the URL and
a double quote. -/
theorem parse_message_has_adjective :
    MetaViaHTTP
        (fixedHttp
          (none, .urlError (ascii "parse") (ascii "http://a\nb")
            (.errorString (ascii "net/url: invalid control character in URL")))
          (none, .nil))
        (ascii "http://a\nb") [] [] []
      = .ok (none, (Cannot (ascii "parse") (ascii "URL") (ascii "http://a\nb") true []
          (.urlError (ascii "parse") (ascii "http://a\nb")
            (.errorString (ascii "net/url: invalid control character in URL")))).toError) ∧
    GetViaHTTP
        (fixedHttp
          (none, .urlError (ascii "parse") (ascii "http://a\nb")
            (.errorString (ascii "net/url: invalid control character in URL")))
          (none, .nil))
        (ascii "http://a\nb") [] [] []
      = .ok (none, (Cannot (ascii "parse") (ascii "URL") (ascii "http://a\nb") true []
          (.urlError (ascii "parse") (ascii "http://a\nb")
            (.errorString (ascii "net/url: invalid control character in URL")))).toError) ∧
    CannotError.Error emptyTable
        (Cannot (ascii "parse") (ascii "URL") (ascii "http://a\nb") true []
          (.urlError (ascii "parse") (ascii "http://a\nb")
            (.errorString (ascii "net/url: invalid control character in URL"))))
      = .ok (ascii "cannot parse URL \"http://a\\nb\": : invalid control character in URL") ∧
    HasPrefix (ascii "cannot parse URL \"http://a\\nb\": : invalid control character in URL")
        (ascii "cannot parse " ++ [0x22] ++ ascii "http://a\nb" ++ [0x22]) = false ∧
    HasPrefix (ascii "cannot parse URL \"http://a\\nb\": : invalid control character in URL")
        (ascii "cannot parse \"") = false := by
  refine ⟨?_, ?_, ?_, by decide, by decide⟩
  · exact MetaViaHTTP_newRequest_error _ _ _ _ _ none _ rfl (by decide)
  · exact GetViaHTTP_newRequest_error _ _ _ _ _ none _ rfl (by decide)
  · have ht : TidyError emptyTable (.urlError (ascii "parse") (ascii "http://a\nb")
        (.errorString (ascii "net/url: invalid control character in URL")))
        = .ok (ascii ": invalid control character in URL") := by
      rw [TidyError_parse, Error_errorString]
      decide
    rw [CannotError.Error_of_tidy emptyTable _ _ (by decide) ht]
    exact congrArg Except.ok (by decide)

/-- A text that begins with `"net/url: "`, without its first seven bytes. -/
theorem drop_seven (rest : GoString) :
    (ascii "net/url: " ++ rest).drop 7 = ascii ": " ++ rest := by
  have h9 : ascii "net/url: " = ascii "net/url" ++ ascii ": " := by decide
  have h7 : (ascii "net/url").length = 7 := by decide
  rw [h9, List.append_assoc, ← h7, List.drop_left]

/-- `TidyError` returns on a URL error of operation `parse` whose cause has a
text. -/
theorem TidyError_parse_returns (tbl : Nat → Bool) (u : GoString) (cause : GoError)
    (text : GoString) (h : GoError.Error tbl cause = .ok text) :
    ∃ tidy, TidyError tbl (.urlError (ascii "parse") u cause) = .ok tidy := by
  rw [TidyError_parse, h]
  by_cases hp : HasPrefix text (ascii "net/url: ") = true
  · have hlen : 7 ≤ text.length := by
      obtain ⟨rest, rfl⟩ := (HasPrefix_iff _ _).1 hp
      have : (ascii "net/url: ").length = 9 := by decide
      rw [List.length_append, this]; omega
    exact ⟨text.drop 7, by simp only [Except.bind, hp, if_true, sliceFrom, hlen]⟩
  · exact ⟨text, by simp only [Except.bind, hp, Bool.false_eq_true, if_false]⟩

/-- What `TidyError` returns on a URL error of operation `parse` never begins
with `"net/url: "`. -/
theorem TidyError_parse_no_prefix (tbl : Nat → Bool) (u : GoString) (cause : GoError)
    (tidy : GoString) (h : TidyError tbl (.urlError (ascii "parse") u cause) = .ok tidy) :
    HasPrefix tidy (ascii "net/url: ") = false := by
  rw [TidyError_parse] at h
  cases hc : GoError.Error tbl cause with
  | error p => rw [hc] at h; exact Except.noConfusion h
  | ok text =>
    rw [hc] at h
    by_cases hp : HasPrefix text (ascii "net/url: ") = true
    · obtain ⟨rest, rfl⟩ := (HasPrefix_iff _ _).1 hp
      have hlen : 7 ≤ (ascii "net/url: " ++ rest).length := by
        have : (ascii "net/url: ").length = 9 := by decide
        rw [List.length_append, this]; omega
      simp only [Except.bind, hp, if_true, sliceFrom, hlen, Except.ok.injEq, drop_seven] at h
      rw [← h]
      cases hq : HasPrefix (ascii ": " ++ rest) (ascii "net/url: ") with
      | false => rfl
      | true =>
        exfalso
        obtain ⟨r2, hr⟩ := (HasPrefix_iff _ _).1 hq
        have hh : (ascii ": " ++ rest).head? = (ascii "net/url: " ++ r2).head? :=
          congrArg List.head? hr
        have h1 : (ascii ": " ++ rest).head? = some 58 := rfl
        have h2 : (ascii "net/url: " ++ r2).head? = some 110 := rfl
        rw [h1, h2] at hh
        exact absurd hh (by decide)
    · simp only [Except.bind, hp, Bool.false_eq_true, if_false, Except.ok.injEq] at h
      rw [← h]
      simpa using hp

/-- The message of the error that `newRequest` builds: `cannot parse URL `
and the URL as `%q` writes it, then `": "` and the tidied cause; it is
returned exactly when `TidyError` returns. -/
theorem parse_cannot_message (tbl : Nat → Bool) (url : GoString) (e : GoError)
    (he : e ≠ .nil) :
    CannotError.Error tbl (Cannot (ascii "parse") (ascii "URL") url true [] e)
      = (TidyError tbl e).map
          (fun tidy => ascii "cannot parse URL " ++ Quote tbl url ++ ascii ": " ++ tidy) := by
  have hn : (Cannot (ascii "parse") (ascii "URL") url true [] e).narrative tbl
      = ascii "cannot parse URL " ++ Quote tbl url := by
    have ha : ascii "URL" ≠ [] := by decide
    simp only [CannotError.narrative, Cannot, ha, ne_eq, not_false_eq_true, if_true,
      not_true_eq_false, if_false, List.append_nil, List.append_assoc]
    rfl
  have hb : (Cannot (ascii "parse") (ascii "URL") url true [] e).BaseError ≠ .nil := he
  rw [CannotError.Error_eq_narrative, if_pos hb, hn]
  rfl

/-- C16 (amended). When `http.NewRequest` returns the error `e`, the error
returned by `MetaViaHTTP` and by `GetViaHTTP` has the message
`cannot parse URL `, then the URL as `%q` writes it, then `": "` and
`TidyError(e)`; the message is returned exactly when `TidyError(e)` is, and
then begins with `cannot parse URL ` and the quoted URL, which is the URL
unchanged between double quotes when its bytes are printable ASCII other than
`"` and `\`. When `e` is a URL error of operation `parse` whose cause has a
text, as `http.NewRequest` returns for a malformed URL, the message is
returned, and the tidied cause in it does not begin with `"net/url: "`; for
the cause `net/url: invalid control character in URL` it does not contain
`"net/url: "` at all. -/
theorem parse_error_message {Req Cookie : Type} (tbl : Nat → Bool) (lib : Http Req Cookie)
    (url what : GoString) (headers : Header) (cookies : List Cookie) :
    ((lib.NewRequest (ascii "HEAD") url).2 ≠ .nil →
      ∃ ce : CannotError, MetaViaHTTP lib url what headers cookies = .ok (none, ce.toError) ∧
        ce.Error tbl = (TidyError tbl (lib.NewRequest (ascii "HEAD") url).2).map
          (fun tidy => ascii "cannot parse URL " ++ Quote tbl url ++ ascii ": " ++ tidy) ∧
        (∀ msg, ce.Error tbl = .ok msg →
          HasPrefix msg (ascii "cannot parse URL " ++ Quote tbl url) = true)) ∧
    ((lib.NewRequest (ascii "GET") url).2 ≠ .nil →
      ∃ ce : CannotError, GetViaHTTP lib url what headers cookies = .ok (none, ce.toError) ∧
        ce.Error tbl = (TidyError tbl (lib.NewRequest (ascii "GET") url).2).map
          (fun tidy => ascii "cannot parse URL " ++ Quote tbl url ++ ascii ": " ++ tidy) ∧
        (∀ msg, ce.Error tbl = .ok msg →
          HasPrefix msg (ascii "cannot parse URL " ++ Quote tbl url) = true)) ∧
    (∀ u cause text,
      (lib.NewRequest (ascii "HEAD") url).2 = .urlError (ascii "parse") u cause →
      GoError.Error tbl cause = .ok text →
      ∃ (ce : CannotError) (msg tidy : GoString),
        MetaViaHTTP lib url what headers cookies = .ok (none, ce.toError) ∧
        ce.Error tbl = .ok msg ∧
        HasPrefix msg (ascii "cannot parse URL " ++ Quote tbl url) = true ∧
        TidyError tbl (.urlError (ascii "parse") u cause) = .ok tidy ∧
        msg = ascii "cannot parse URL " ++ Quote tbl url ++ ascii ": " ++ tidy ∧
        HasPrefix tidy (ascii "net/url: ") = false) ∧
    (∀ u cause text,
      (lib.NewRequest (ascii "GET") url).2 = .urlError (ascii "parse") u cause →
      GoError.Error tbl cause = .ok text →
      ∃ (ce : CannotError) (msg tidy : GoString),
        GetViaHTTP lib url what headers cookies = .ok (none, ce.toError) ∧
        ce.Error tbl = .ok msg ∧
        HasPrefix msg (ascii "cannot parse URL " ++ Quote tbl url) = true ∧
        TidyError tbl (.urlError (ascii "parse") u cause) = .ok tidy ∧
        msg = ascii "cannot parse URL " ++ Quote tbl url ++ ascii ": " ++ tidy ∧
        HasPrefix tidy (ascii "net/url: ") = false) ∧
    ((∀ b ∈ url, plainByte b = true) → Quote tbl url = [0x22] ++ url ++ [0x22]) ∧
    (∀ u cause tidy, TidyError tbl (.urlError (ascii "parse") u cause) = .ok tidy →
      HasPrefix tidy (ascii "net/url: ") = false) ∧
    (∃ tidy, TidyError tbl (.urlError (ascii "parse") url
        (.errorString (ascii "net/url: invalid control character in URL"))) = .ok tidy ∧
      ¬ (ascii "net/url: " <:+: tidy)) := by
  have hpre : ∀ (ce : CannotError) (e : GoError),
      ce.Error tbl = (TidyError tbl e).map
        (fun tidy => ascii "cannot parse URL " ++ Quote tbl url ++ ascii ": " ++ tidy) →
      ∀ msg, ce.Error tbl = .ok msg →
        HasPrefix msg (ascii "cannot parse URL " ++ Quote tbl url) = true := by
    intro ce e h msg hm
    rw [h] at hm
    cases ht : TidyError tbl e with
    | error p => rw [ht] at hm; exact Except.noConfusion hm
    | ok tidy =>
      rw [ht] at hm
      simp only [Except.map, Except.ok.injEq] at hm
      rw [← hm, List.append_assoc]
      exact HasPrefix_append _ _
  have hmeta : (lib.NewRequest (ascii "HEAD") url).2 ≠ .nil →
      MetaViaHTTP lib url what headers cookies
        = .ok (none, (Cannot (ascii "parse") (ascii "URL") url true []
            (lib.NewRequest (ascii "HEAD") url).2).toError) := fun he =>
    MetaViaHTTP_newRequest_error lib url what headers cookies none _
      (newRequest_fail lib _ url headers cookies he) (fun hc => GoError.noConfusion hc)
  have hget : (lib.NewRequest (ascii "GET") url).2 ≠ .nil →
      GetViaHTTP lib url what headers cookies
        = .ok (none, (Cannot (ascii "parse") (ascii "URL") url true []
            (lib.NewRequest (ascii "GET") url).2).toError) := fun he =>
    GetViaHTTP_newRequest_error lib url what headers cookies none _
      (newRequest_fail lib _ url headers cookies he) (fun hc => GoError.noConfusion hc)
  have hparse : ∀ (e : GoError) (u : GoString) (cause : GoError) (text : GoString),
      e = .urlError (ascii "parse") u cause → GoError.Error tbl cause = .ok text →
      ∃ (msg tidy : GoString),
        CannotError.Error tbl (Cannot (ascii "parse") (ascii "URL") url true [] e) = .ok msg ∧
        HasPrefix msg (ascii "cannot parse URL " ++ Quote tbl url) = true ∧
        TidyError tbl (.urlError (ascii "parse") u cause) = .ok tidy ∧
        msg = ascii "cannot parse URL " ++ Quote tbl url ++ ascii ": " ++ tidy ∧
        HasPrefix tidy (ascii "net/url: ") = false := by
    intro e u cause text he hc
    obtain ⟨tidy, ht⟩ := TidyError_parse_returns tbl u cause text hc
    have hne : e ≠ .nil := by rw [he]; exact fun h => GoError.noConfusion h
    have hm : CannotError.Error tbl (Cannot (ascii "parse") (ascii "URL") url true [] e)
        = .ok (ascii "cannot parse URL " ++ Quote tbl url ++ ascii ": " ++ tidy) := by
      rw [parse_cannot_message tbl url e hne, he, ht]
      rfl
    refine ⟨_, tidy, hm, ?_, ht, rfl, TidyError_parse_no_prefix tbl u cause tidy ht⟩
    rw [List.append_assoc]
    exact HasPrefix_append _ _
  refine ⟨fun he => ?_, fun he => ?_, fun u cause text he hc => ?_,
    fun u cause text he hc => ?_, fun hp => Quote_plain tbl url hp,
    fun u cause tidy ht => TidyError_parse_no_prefix tbl u cause tidy ht, ?_⟩
  · exact ⟨_, hmeta he, parse_cannot_message tbl url _ he,
      hpre _ _ (parse_cannot_message tbl url _ he)⟩
  · exact ⟨_, hget he, parse_cannot_message tbl url _ he,
      hpre _ _ (parse_cannot_message tbl url _ he)⟩
  · have hne : (lib.NewRequest (ascii "HEAD") url).2 ≠ .nil := by
      rw [he]; exact fun h => GoError.noConfusion h
    obtain ⟨msg, tidy, h1, h2, h3, h4, h5⟩ := hparse _ u cause text he hc
    exact ⟨_, msg, tidy, hmeta hne, h1, h2, h3, h4, h5⟩
  · have hne : (lib.NewRequest (ascii "GET") url).2 ≠ .nil := by
      rw [he]; exact fun h => GoError.noConfusion h
    obtain ⟨msg, tidy, h1, h2, h3, h4, h5⟩ := hparse _ u cause text he hc
    exact ⟨_, msg, tidy, hget hne, h1, h2, h3, h4, h5⟩
  · refine ⟨(ascii "net/url: invalid control character in URL").drop 7, ?_, by decide⟩
    rw [TidyError_parse, Error_errorString]
    rfl

/-- The theorem of C16 (amended) for the URL `http://a` + line feed + `b`,
which `http.NewRequest` rejects with a parse error. -/
theorem parse_error_message_witness :
    ((fixedHttp
        (none, .urlError (ascii "parse") (ascii "http://a\nb")
          (.errorString (ascii "net/url: invalid control character in URL")))
        (none, .nil)).NewRequest (ascii "HEAD") (ascii "http://a\nb")).2
      = .urlError (ascii "parse") (ascii "http://a\nb")
          (.errorString (ascii "net/url: invalid control character in URL")) ∧
    GoError.Error emptyTable (.errorString (ascii "net/url: invalid control character in URL"))
      = .ok (ascii "net/url: invalid control character in URL") ∧
    ∃ (ce : CannotError) (msg tidy : GoString),
      MetaViaHTTP
          (fixedHttp
            (none, .urlError (ascii "parse") (ascii "http://a\nb")
              (.errorString (ascii "net/url: invalid control character in URL")))
            (none, .nil))
          (ascii "http://a\nb") (ascii "index") [] []
        = .ok (none, ce.toError) ∧
      ce.Error emptyTable = .ok msg ∧
      HasPrefix msg (ascii "cannot parse URL " ++ Quote emptyTable (ascii "http://a\nb"))
        = true ∧
      TidyError emptyTable (.urlError (ascii "parse") (ascii "http://a\nb")
          (.errorString (ascii "net/url: invalid control character in URL"))) = .ok tidy ∧
      msg = ascii "cannot parse URL " ++ Quote emptyTable (ascii "http://a\nb") ++ ascii ": "
        ++ tidy ∧
      HasPrefix tidy (ascii "net/url: ") = false :=
  ⟨rfl, Error_errorString _ _,
    (parse_error_message emptyTable
      (fixedHttp
        (none, .urlError (ascii "parse") (ascii "http://a\nb")
          (.errorString (ascii "net/url: invalid control character in URL")))
        (none, .nil))
      (ascii "http://a\nb") (ascii "index") [] []).2.2.1
      (ascii "http://a\nb")
      (.errorString (ascii "net/url: invalid control character in URL"))
      (ascii "net/url: invalid control character in URL") rfl (Error_errorString _ _)⟩

/-- C17. When `http.NewRequest` returns an error `e`, `GetViaHTTP` and
`MetaViaHTTP` return nil and exactly
`CannotError{"parse", "URL", url, true, "", e}`, whatever the label: the noun
is the URL, and the error of `newRequest` is not wrapped again. -/
theorem request_error_returned {Req Cookie : Type} (lib : Http Req Cookie)
    (url what : GoString) (headers : Header) (cookies : List Cookie) :
    ((lib.NewRequest (ascii "GET") url).2 ≠ .nil →
      GetViaHTTP lib url what headers cookies
        = .ok (none, (Cannot (ascii "parse") (ascii "URL") url true []
            (lib.NewRequest (ascii "GET") url).2).toError)) ∧
    ((lib.NewRequest (ascii "HEAD") url).2 ≠ .nil →
      MetaViaHTTP lib url what headers cookies
        = .ok (none, (Cannot (ascii "parse") (ascii "URL") url true []
            (lib.NewRequest (ascii "HEAD") url).2).toError)) :=
  ⟨fun he => GetViaHTTP_newRequest_error lib url what headers cookies none _
      (newRequest_fail lib _ url headers cookies he) (fun hc => GoError.noConfusion hc),
    fun he => MetaViaHTTP_newRequest_error lib url what headers cookies none _
      (newRequest_fail lib _ url headers cookies he) (fun hc => GoError.noConfusion hc)⟩

/-- The theorem of C17 for a URL without scheme and the label `index`. -/
theorem request_error_returned_witness :
    ((fixedHttp (none, .urlError (ascii "parse") (ascii "://x")
        (.errorString (ascii "missing protocol scheme"))) (none, .nil)).NewRequest
      (ascii "GET") (ascii "://x")).2 ≠ .nil ∧
    GetViaHTTP
        (fixedHttp (none, .urlError (ascii "parse") (ascii "://x")
          (.errorString (ascii "missing protocol scheme"))) (none, .nil))
        (ascii "://x") (ascii "index") [] []
      = .ok (none, (Cannot (ascii "parse") (ascii "URL") (ascii "://x") true []
          (.urlError (ascii "parse") (ascii "://x")
            (.errorString (ascii "missing protocol scheme")))).toError) :=
  ⟨by decide,
    (request_error_returned
      (fixedHttp (none, .urlError (ascii "parse") (ascii "://x")
        (.errorString (ascii "missing protocol scheme"))) (none, .nil))
      (ascii "://x") (ascii "index") [] []).1 (by decide)⟩

/-- C18. `Cannot` stores its six arguments in the six fields, and `Unwrap`
returns the cause given, nil when the cause is nil. -/
theorem Cannot_fields_and_Unwrap (verb adjective noun : GoString) (quoteNoun : Bool)
    (suffix : GoString) (cause : GoError) :
    (Cannot verb adjective noun quoteNoun suffix cause).Unwrap = cause ∧
    (Cannot verb adjective noun quoteNoun suffix .nil).Unwrap = .nil ∧
    (Cannot verb adjective noun quoteNoun suffix cause).Verb = verb ∧
    (Cannot verb adjective noun quoteNoun suffix cause).Adjective = adjective ∧
    (Cannot verb adjective noun quoteNoun suffix cause).Noun = noun ∧
    (Cannot verb adjective noun quoteNoun suffix cause).QuoteNoun = quoteNoun ∧
    (Cannot verb adjective noun quoteNoun suffix cause).Suffix = suffix ∧
    (Cannot verb adjective noun quoteNoun suffix cause).BaseError = cause :=
  ⟨rfl, rfl, rfl, rfl, rfl, rfl, rfl, rfl⟩

/-- C19. Against a library that keeps the contracts of `http.NewRequest` and
of `Do` (a nil error comes with a non-nil result), `GetViaHTTP` always
returns, and returns either a body and a nil error or a nil body and a
`*CannotError`. The error is the `parse` error of the request, the `fetch`
error of a transport error or of the `HttpError` of a response, or the `read`
error; it is never an `HttpError` itself. A body is returned only for a
status code from 200 to 299 whose body was read without error. -/
theorem GetViaHTTP_results {Req Cookie : Type} (lib : Http Req Cookie)
    (url what : GoString) (headers : Header) (cookies : List Cookie)
    (hNew : (lib.NewRequest (ascii "GET") url).2 = .nil →
      (lib.NewRequest (ascii "GET") url).1 ≠ none)
    (hDo : ∀ r, (lib.Do r).2 = .nil → (lib.Do r).1 ≠ none) :
    (∃ res, GetViaHTTP lib url what headers cookies = .ok res ∧
      ((∃ body, res = (some body, .nil)) ∨ (∃ ce : CannotError, res = (none, ce.toError)))) ∧
    (∀ body err, GetViaHTTP lib url what headers cookies = .ok (body, err) → err ≠ .nil →
      body = none ∧ (∀ c t, err ≠ .httpError c t) ∧
      (err = (Cannot (ascii "parse") (ascii "URL") url true []
          (lib.NewRequest (ascii "GET") url).2).toError ∨
        (∃ r, (lib.Do r).2 ≠ .nil ∧
          err = (Cannot (ascii "fetch") [] (if what = [] then url else what)
            (decide (what = [])) [] (lib.Do r).2).toError) ∨
        (∃ r resp, lib.Do r = (some resp, .nil) ∧
          ¬ (200 ≤ resp.StatusCode ∧ resp.StatusCode ≤ 299) ∧
          err = (Cannot (ascii "fetch") [] (if what = [] then url else what)
            (decide (what = [])) [] (HTTPerror resp)).toError) ∨
        (∃ r resp, lib.Do r = (some resp, .nil) ∧
          200 ≤ resp.StatusCode ∧ resp.StatusCode ≤ 299 ∧ resp.ReadAll.2 ≠ .nil ∧
          err = (Cannot (ascii "read") [] (if what = [] then url else what)
            (decide (what = [])) (ascii " from network") resp.ReadAll.2).toError))) ∧
    (∀ body err, GetViaHTTP lib url what headers cookies = .ok (some body, err) →
      err = .nil ∧
      ∃ r resp, lib.Do r = (some resp, .nil) ∧
        200 ≤ resp.StatusCode ∧ resp.StatusCode ≤ 299 ∧ resp.ReadAll = (body, .nil)) := by
  have hnot : ∀ {code : Int}, IsHTTPerror code = true → ¬ (200 ≤ code ∧ code ≤ 299) := by
    intro code h hr
    rw [(IsHTTPerror_eq_false code).2 hr] at h
    exact Bool.noConfusion h
  have hce : ∀ (ce : CannotError) (c : Int) (t : GoString), ce.toError ≠ .httpError c t :=
    fun ce c t hc => GoError.noConfusion hc
  have hcn : ∀ (ce : CannotError), ce.toError ≠ .nil := fun ce hc => GoError.noConfusion hc
  rcases GetViaHTTP_cases lib url what headers cookies hNew hDo with
    ⟨he, hg⟩ | ⟨r, he, hg⟩ | ⟨r, resp, hd, hs, hg⟩ | ⟨r, resp, hd, hs, hr, hg⟩ |
    ⟨r, resp, hd, hs, hr, hg⟩
  · refine ⟨⟨_, hg, Or.inr ⟨_, rfl⟩⟩, ?_, ?_⟩
    · intro body err h _
      rw [hg] at h
      injection h with h
      injection h with h1 h2
      subst h1; subst h2
      exact ⟨rfl, hce _, Or.inl rfl⟩
    · intro body err h
      rw [hg] at h
      injection h with h
      injection h with h1 h2
      exact Option.noConfusion h1
  · refine ⟨⟨_, hg, Or.inr ⟨_, rfl⟩⟩, ?_, ?_⟩
    · intro body err h _
      rw [hg] at h
      injection h with h
      injection h with h1 h2
      subst h1; subst h2
      exact ⟨rfl, hce _, Or.inr (Or.inl ⟨r, he, rfl⟩)⟩
    · intro body err h
      rw [hg] at h
      injection h with h
      injection h with h1 h2
      exact Option.noConfusion h1
  · refine ⟨⟨_, hg, Or.inr ⟨_, rfl⟩⟩, ?_, ?_⟩
    · intro body err h _
      rw [hg] at h
      injection h with h
      injection h with h1 h2
      subst h1; subst h2
      exact ⟨rfl, hce _, Or.inr (Or.inr (Or.inl ⟨r, resp, hd, hnot hs, rfl⟩))⟩
    · intro body err h
      rw [hg] at h
      injection h with h
      injection h with h1 h2
      exact Option.noConfusion h1
  · have h2xx := (IsHTTPerror_eq_false _).1 hs
    refine ⟨⟨_, hg, Or.inr ⟨_, rfl⟩⟩, ?_, ?_⟩
    · intro body err h _
      rw [hg] at h
      injection h with h
      injection h with h1 h2
      subst h1; subst h2
      exact ⟨rfl, hce _, Or.inr (Or.inr (Or.inr ⟨r, resp, hd, h2xx.1, h2xx.2, hr, rfl⟩))⟩
    · intro body err h
      rw [hg] at h
      injection h with h
      injection h with h1 h2
      exact Option.noConfusion h1
  · have h2xx := (IsHTTPerror_eq_false _).1 hs
    refine ⟨⟨_, hg, Or.inl ⟨_, rfl⟩⟩, ?_, ?_⟩
    · intro body err h hne
      rw [hg] at h
      injection h with h
      injection h with h1 h2
      exact absurd h2.symm hne
    · intro body err h
      rw [hg] at h
      injection h with h
      injection h with h1 h2
      injection h1 with h1
      exact ⟨h2.symm, r, resp, hd, h2xx.1, h2xx.2, Prod.ext h1 hr⟩

/-- The theorem of C19 for a server that answers `200 OK` with the body
`hello`. -/
theorem GetViaHTTP_results_witness :
    GetViaHTTP
        (fixedHttp (some (), .nil)
          (some { StatusCode := 200, Status := ascii "200 OK",
                  ReadAll := (ascii "hello", .nil) }, .nil))
        (ascii "http://a/") [] [] []
      = .ok (some (ascii "hello"), .nil) ∧
    ∃ res,
      GetViaHTTP
          (fixedHttp (some (), .nil)
            (some { StatusCode := 200, Status := ascii "200 OK",
                    ReadAll := (ascii "hello", .nil) }, .nil))
          (ascii "http://a/") [] [] []
        = .ok res ∧
      ((∃ body, res = (some body, .nil)) ∨ (∃ ce : CannotError, res = (none, ce.toError))) :=
  ⟨by decide,
    (GetViaHTTP_results
      (fixedHttp (some (), .nil)
        (some { StatusCode := 200, Status := ascii "200 OK",
                ReadAll := (ascii "hello", .nil) }, .nil))
      (ascii "http://a/") [] [] []
      (fun _ => by decide) (fun _ _ h => Option.noConfusion h)).1⟩

/-- The narrative of a `CannotError` is its message without cause. -/
theorem CannotError.Error_without_cause (tbl : Nat → Bool) (ce : CannotError) :
    CannotError.Error tbl { ce with BaseError := .nil } = .ok (ce.narrative tbl) := by
  rw [CannotError.Error_eq_narrative]
  simp only [ne_eq, not_true_eq_false, if_false]
  rfl

/-- C20. `TidyError` leaves the errors of this package alone. For every
`*HttpError` it returns the text of `Error()`, which begins with
`"HTTP error "`; for every `*CannotError` it returns what `Error()` returns,
a text that begins with `"cannot "`. Hence a `CannotError` whose cause is an
`HttpError` or another `CannotError` renders as its own narrative (its
message without cause), then `": "`, then the whole message of the cause. -/
theorem TidyError_own_errors (tbl : Nat → Bool) :
    (∀ h : HttpError, ∃ m, h.Error = .ok m ∧ TidyError tbl h.toError = .ok m ∧
      HasPrefix m (ascii "HTTP error ") = true ∧ 5 ≤ m.length ∧
      HasPrefix m (ascii "zip: ") = false) ∧
    (∀ c : CannotError, TidyError tbl c.toError = c.Error tbl ∧
      ∀ m, c.Error tbl = .ok m →
        HasPrefix m (ascii "cannot ") = true ∧ 5 ≤ m.length ∧
        HasPrefix m (ascii "zip: ") = false) ∧
    (∀ (ce : CannotError) (h : HttpError), ce.BaseError = h.toError →
      ∃ m, h.Error = .ok m ∧
        CannotError.Error tbl { ce with BaseError := .nil } = .ok (ce.narrative tbl) ∧
        ce.Error tbl = .ok (ce.narrative tbl ++ ascii ": " ++ m)) ∧
    (∀ (ce c : CannotError) (m : GoString), ce.BaseError = c.toError → c.Error tbl = .ok m →
      CannotError.Error tbl { ce with BaseError := .nil } = .ok (ce.narrative tbl) ∧
      ce.Error tbl = .ok (ce.narrative tbl ++ ascii ": " ++ m)) := by
  have hpre : ∀ (pre rest : GoString), 5 ≤ pre.length → pre.take 5 ≠ ascii "zip: " →
      HasPrefix (pre ++ rest) pre = true ∧ 5 ≤ (pre ++ rest).length ∧
      HasPrefix (pre ++ rest) (ascii "zip: ") = false := by
    intro pre rest h5 hz
    refine ⟨HasPrefix_append pre rest, by rw [List.length_append]; omega, ?_⟩
    cases hc : HasPrefix (pre ++ rest) (ascii "zip: ") with
    | false => rfl
    | true =>
      exfalso
      have hl : (ascii "zip: ").length = 5 := by decide
      simp only [HasPrefix, Bool.and_eq_true, decide_eq_true_eq, beq_iff_eq, hl,
        List.take_append_of_le_length h5] at hc
      exact hz hc.2
  have hhttp : ∀ h : HttpError, ∃ m, h.Error = .ok m ∧ TidyError tbl h.toError = .ok m ∧
      HasPrefix m (ascii "HTTP error ") = true ∧ 5 ≤ m.length ∧
      HasPrefix m (ascii "zip: ") = false := by
    intro h
    have he := HttpError.Error_unfold h
    simp only [List.append_assoc] at he
    refine ⟨_, he, ?_, hpre (ascii "HTTP error ") _ (by decide) (by decide)⟩
    show TidyError tbl (.httpError h.Code h.Text) = _
    rw [TidyError_httpError]
    exact he
  refine ⟨hhttp, fun c => ⟨TidyError_cannotError tbl c, fun m hm => ?_⟩,
    fun ce h hb => ?_, fun ce c m hb hm => ?_⟩
  · obtain ⟨rest, rfl⟩ := CannotError.Error_prefix tbl c m hm
    exact hpre (ascii "cannot ") rest (by decide) (by decide)
  · obtain ⟨m, hm, ht, -⟩ := hhttp h
    refine ⟨m, hm, CannotError.Error_without_cause tbl ce, ?_⟩
    refine CannotError.Error_of_tidy tbl ce m ?_ (by rw [hb]; exact ht)
    rw [hb]
    exact fun hc => GoError.noConfusion hc
  · refine ⟨CannotError.Error_without_cause tbl ce, ?_⟩
    refine CannotError.Error_of_tidy tbl ce m ?_ ?_
    · rw [hb]
      exact fun hc => GoError.noConfusion hc
    · rw [hb, TidyError_cannotError, hm]

/-- The theorem of C20 for a `fetch` error that wraps a `parse` error. -/
theorem TidyError_own_errors_witness :
    (Cannot (ascii "fetch") [] (ascii "index") false []
        (Cannot (ascii "parse") (ascii "URL") (ascii "x") false [] .nil).toError).BaseError
      = (Cannot (ascii "parse") (ascii "URL") (ascii "x") false [] .nil).toError ∧
    CannotError.Error emptyTable (Cannot (ascii "parse") (ascii "URL") (ascii "x") false [] .nil)
      = .ok (ascii "cannot parse URL x") ∧
    CannotError.Error emptyTable (Cannot (ascii "fetch") [] (ascii "index") false []
        (Cannot (ascii "parse") (ascii "URL") (ascii "x") false [] .nil).toError)
      = .ok (ascii "cannot fetch index: cannot parse URL x") := by
  have hm : CannotError.Error emptyTable
      (Cannot (ascii "parse") (ascii "URL") (ascii "x") false [] .nil)
      = .ok (ascii "cannot parse URL x") := by
    rw [CannotError.Error_eq_narrative]
    decide
  exact ⟨rfl, hm,
    ((TidyError_own_errors emptyTable).2.2.2
      (Cannot (ascii "fetch") [] (ascii "index") false []
        (Cannot (ascii "parse") (ascii "URL") (ascii "x") false [] .nil).toError)
      (Cannot (ascii "parse") (ascii "URL") (ascii "x") false [] .nil)
      (ascii "cannot parse URL x") rfl hm).2.trans (congrArg Except.ok (by decide))⟩

end Errs
